import Mathlib

/-!
Formal model of the xpath-generator repository: the candidate-generation,
validation and ranking pipeline of `src/generateXPath.js`, together with the
selector resolver (`resolveElementFromStoredSelector`).  JavaScript strings are
modelled as `List Char`; the DOM tree is modelled as a read-only inductive
tree; the host browser's XPath engine (`doc.evaluate`) is modelled by an
executable parser plus evaluator for the query fragment the generator emits.
-/

namespace XPG

/-- Characters of a JavaScript string. -/
abbrev Str := List Char

/-! ## Character classes (ASCII, matching the regex character classes used in
the source). -/

/-- Model of the regex class `\d`. -/
def digitB (c : Char) : Bool := 48 ≤ c.toNat && c.toNat ≤ 57

/-- Model of the regex class `[A-Z]`. -/
def upperB (c : Char) : Bool := 65 ≤ c.toNat && c.toNat ≤ 90

/-- Model of the regex class `[a-z]`. -/
def lowerB (c : Char) : Bool := 97 ≤ c.toNat && c.toNat ≤ 122

/-- Model of the regex class `[a-zA-Z]`. -/
def alphaB (c : Char) : Bool := upperB c || lowerB c

/-- Model of the regex class `[a-zA-Z0-9]`. -/
def alnumB (c : Char) : Bool := alphaB c || digitB c

/-- Model of the regex class `[a-fA-F0-9-]` used by the UUID/hex rule. -/
def hexDashB (c : Char) : Bool :=
  digitB c || (97 ≤ c.toNat && c.toNat ≤ 102) || (65 ≤ c.toNat && c.toNat ≤ 70) || c == '-'

/-! ## Small list/string utilities shared by the model. -/

/-- `isPfx p s` is true when `p` is a leading segment of `s`
(model of `String.prototype.startsWith`). -/
def isPfx : Str → Str → Bool
  | [], _ => true
  | _ :: _, [] => false
  | a :: as, b :: bs => a == b && isPfx as bs

theorem isPfx_iff (p s : Str) : isPfx p s = true ↔ ∃ t, s = p ++ t := by
  induction p generalizing s with
  | nil =>
    simp [isPfx]
  | cons a as ih =>
    cases s with
    | nil =>
      simp [isPfx]
    | cons b bs =>
      simp only [isPfx, Bool.and_eq_true, beq_iff_eq, ih, List.cons_append]
      constructor
      · rintro ⟨hab, t, ht⟩
        exact ⟨t, by simp [hab, ht]⟩
      · rintro ⟨t, ht⟩
        injection ht with h1 h2
        exact ⟨h1.symm, t, h2⟩

theorem takeWhile_app_all (p : Char → Bool) (xs ys : Str) (h : ∀ x ∈ xs, p x = true) :
    (xs ++ ys).takeWhile p = xs ++ ys.takeWhile p := by
  induction xs with
  | nil => simp
  | cons a as ih =>
    have ha : p a = true := h a (by simp)
    simp only [List.cons_append, List.takeWhile_cons, ha, if_true]
    rw [ih (fun x hx => h x (by simp [hx]))]

theorem dropWhile_app_all (p : Char → Bool) (xs ys : Str) (h : ∀ x ∈ xs, p x = true) :
    (xs ++ ys).dropWhile p = ys.dropWhile p := by
  induction xs with
  | nil => simp
  | cons a as ih =>
    have ha : p a = true := h a (by simp)
    simp only [List.cons_append, List.dropWhile_cons, ha, if_true]
    exact ih (fun x hx => h x (by simp [hx]))

theorem mem_takeWhile_sat (p : Char → Bool) (l : Str) :
    ∀ x ∈ l.takeWhile p, p x = true := by
  induction l with
  | nil => simp
  | cons a as ih =>
    by_cases ha : p a = true
    · simp only [List.takeWhile_cons, ha, if_true]
      intro x hx
      rcases List.mem_cons.mp hx with h | h
      · simpa [h] using ha
      · exact ih x h
    · simp only [List.takeWhile_cons, Bool.not_eq_true] at ha ⊢
      simp [ha]

/-! ## Stability classifier: `isStableId` (source lines 431-441).

Each regex of the source becomes one Boolean matcher. -/

/-- Matcher for `/^([a-fA-F0-9-]{10,})$/` — whole-string hex/dash run of
length at least 10. -/
def r1B (s : Str) : Bool := decide (10 ≤ s.length) && s.all hexDashB

/-- Does the string start with `_<alnum+>_<alnum+>_`?  Building block for the
regex `/_[a-zA-Z0-9]+_[a-zA-Z0-9]+_/`. -/
def uuuAt : Str → Bool
  | [] => false
  | c :: rest =>
    c == '_' && !(rest.takeWhile alnumB).isEmpty &&
      (match rest.dropWhile alnumB with
       | [] => false
       | c2 :: rest2 =>
         c2 == '_' && !(rest2.takeWhile alnumB).isEmpty &&
           (match rest2.dropWhile alnumB with
            | [] => false
            | c3 :: _ => c3 == '_'))

/-- Matcher for the unanchored regex `/_[a-zA-Z0-9]+_[a-zA-Z0-9]+_/`:
scan every suffix for the pattern. -/
def containsUUU : Str → Bool
  | [] => false
  | c :: rest => uuuAt (c :: rest) || containsUUU rest

/-- Length of the maximal run of digits at the end of the string. -/
def trailingDigits (s : Str) : Nat := (s.reverse.takeWhile digitB).length

/-- Matcher for `/\d{5,}$/`. -/
def r3B (s : Str) : Bool := decide (5 ≤ trailingDigits s)

/-- Matcher for `/^(ember|react-|vue-)\d*/` (the `\d*` adds no constraint). -/
def r4B (s : Str) : Bool :=
  isPfx ( "ember".data) s || isPfx ( "react-".data) s || isPfx ( "vue-".data) s

/-- Matcher for `/_\d{1,4}$/`: the maximal trailing digit run has length
1 to 4 and is preceded by an underscore. -/
def r5B (s : Str) : Bool :=
  let m := trailingDigits s
  decide (1 ≤ m) && decide (m ≤ 4) && (s.reverse[m]? == some '_')

/-- Embedding of `isStableId` (source lines 431-441): the sequential
regex-rejection cascade, with the JavaScript falsy check `!id` first. -/
def isStableId (s : Str) : Bool :=
  if s.isEmpty then false
  else if r1B s then false
  else if containsUUU s then false
  else if r3B s then false
  else if r4B s then false
  else if r5B s then false
  else true

/-! ### Specification-side rejection predicate for C6, following the claim's
words: a long UUID/hash-shaped hex run, an underscore-delimited run of two
alphanumeric tokens bounded by underscores, 5+ trailing digits, a framework
prefix, or an underscore plus 1-4 trailing digits. -/

/-- The identifier is a long hex run (10 or more characters, every character
a hex digit or a dash — UUID/hash-shaped). -/
def RejHex (s : Str) : Prop := 10 ≤ s.length ∧ ∀ c ∈ s, hexDashB c = true

/-- The identifier contains `_tok_tok_` with both tokens nonempty and
alphanumeric. -/
def RejTokens (s : Str) : Prop :=
  ∃ a t1 t2 b, s = a ++ '_' :: (t1 ++ '_' :: (t2 ++ '_' :: b)) ∧
    t1 ≠ [] ∧ t2 ≠ [] ∧ (∀ c ∈ t1, alnumB c = true) ∧ (∀ c ∈ t2, alnumB c = true)

/-- The identifier ends in five or more digits. -/
def RejTrailing (s : Str) : Prop :=
  ∃ a d, s = a ++ d ∧ 5 ≤ d.length ∧ ∀ c ∈ d, digitB c = true

/-- The identifier starts with a framework prefix. -/
def RejFramework (s : Str) : Prop :=
  (∃ t, s = "ember".data ++ t) ∨ (∃ t, s = "react-".data ++ t) ∨
    (∃ t, s = "vue-".data ++ t)

/-- The identifier ends in an underscore followed by 1 to 4 digits. -/
def RejSuffix (s : Str) : Prop :=
  ∃ a d, s = a ++ '_' :: d ∧ 1 ≤ d.length ∧ d.length ≤ 4 ∧ ∀ c ∈ d, digitB c = true

/-- The full rejection disjunction from the claim. -/
def RejectSpec (s : Str) : Prop :=
  RejHex s ∨ RejTokens s ∨ RejTrailing s ∨ RejFramework s ∨ RejSuffix s

theorem r1B_iff (s : Str) : r1B s = true ↔ RejHex s := by
  simp [r1B, RejHex, List.all_eq_true]

theorem uuuAt_iff (s : Str) :
    uuuAt s = true ↔ ∃ t1 t2 b, s = '_' :: (t1 ++ '_' :: (t2 ++ '_' :: b)) ∧
      t1 ≠ [] ∧ t2 ≠ [] ∧ (∀ c ∈ t1, alnumB c = true) ∧ (∀ c ∈ t2, alnumB c = true) := by
  constructor
  · intro h
    cases s with
    | nil => simp [uuuAt] at h
    | cons c rest =>
      rw [uuuAt, Bool.and_eq_true, Bool.and_eq_true] at h
      obtain ⟨⟨hc, h2⟩, h3⟩ := h
      have hc' : c = '_' := by simpa using hc
      subst hc'
      have ht1 : rest.takeWhile alnumB ≠ [] := by
        simpa using h2
      cases hdrop : rest.dropWhile alnumB with
      | nil => rw [hdrop] at h3; simp at h3
      | cons c2 rest2 =>
        rw [hdrop] at h3
        rw [Bool.and_eq_true, Bool.and_eq_true] at h3
        obtain ⟨⟨hc2, h5⟩, h6⟩ := h3
        have hc2' : c2 = '_' := by simpa using hc2
        subst hc2'
        have ht2 : rest2.takeWhile alnumB ≠ [] := by
          simpa using h5
        cases hdrop2 : rest2.dropWhile alnumB with
        | nil => rw [hdrop2] at h6; simp at h6
        | cons c3 b =>
          rw [hdrop2] at h6
          have hc3' : c3 = '_' := by simpa using h6
          subst hc3'
          refine ⟨rest.takeWhile alnumB, rest2.takeWhile alnumB, b, ?_, ht1, ht2,
            mem_takeWhile_sat _ _, mem_takeWhile_sat _ _⟩
          have e1 : rest = rest.takeWhile alnumB ++ '_' :: rest2 := by
            conv_lhs => rw [← List.takeWhile_append_dropWhile (p := alnumB) (l := rest)]
            rw [hdrop]
          have e2 : rest2 = rest2.takeWhile alnumB ++ '_' :: b := by
            conv_lhs => rw [← List.takeWhile_append_dropWhile (p := alnumB) (l := rest2)]
            rw [hdrop2]
          rw [List.cons_inj_right]
          conv_lhs => rw [e1, e2]
  · rintro ⟨t1, t2, b, hs, h1, h2, ha1, ha2⟩
    subst hs
    have hu : alnumB '_' = false := by decide
    have htw1 : (t1 ++ '_' :: (t2 ++ '_' :: b)).takeWhile alnumB = t1 := by
      rw [takeWhile_app_all _ _ _ ha1]
      simp [List.takeWhile_cons, hu]
    have hdw1 : (t1 ++ '_' :: (t2 ++ '_' :: b)).dropWhile alnumB = '_' :: (t2 ++ '_' :: b) := by
      rw [dropWhile_app_all _ _ _ ha1]
      simp [List.dropWhile_cons, hu]
    have htw2 : (t2 ++ '_' :: b).takeWhile alnumB = t2 := by
      rw [takeWhile_app_all _ _ _ ha2]
      simp [List.takeWhile_cons, hu]
    have hdw2 : (t2 ++ '_' :: b).dropWhile alnumB = '_' :: b := by
      rw [dropWhile_app_all _ _ _ ha2]
      simp [List.dropWhile_cons, hu]
    rw [uuuAt, hdw1]
    simp only [htw1, htw2, hdw2]
    simp [h1, h2]

theorem containsUUU_iff (s : Str) :
    containsUUU s = true ↔ ∃ a b, s = a ++ b ∧ uuuAt b = true := by
  induction s with
  | nil =>
    simp only [containsUUU]
    constructor
    · intro h; exact absurd h (by simp)
    · rintro ⟨a, b, hab, hb⟩
      rcases List.nil_eq_append_iff.mp hab with ⟨ha, hbnil⟩
      subst hbnil
      simp [uuuAt] at hb
  | cons c rest ih =>
    simp only [containsUUU, Bool.or_eq_true, ih]
    constructor
    · rintro (h | ⟨a, b, hab, hb⟩)
      · exact ⟨[], c :: rest, rfl, h⟩
      · exact ⟨c :: a, b, by rw [hab, List.cons_append], hb⟩
    · rintro ⟨a, b, hab, hb⟩
      cases a with
      | nil =>
        left
        simp only [List.nil_append] at hab
        rw [← hab] at hb
        exact hb
      | cons a0 as =>
        right
        rw [List.cons_append] at hab
        injection hab with h1 h2
        exact ⟨as, b, h2, hb⟩

theorem containsUUU_iff_tokens (s : Str) : containsUUU s = true ↔ RejTokens s := by
  rw [containsUUU_iff]
  constructor
  · rintro ⟨a, b, hab, hb⟩
    obtain ⟨t1, t2, bb, hbs, h1, h2, ha1, ha2⟩ := (uuuAt_iff b).mp hb
    exact ⟨a, t1, t2, bb, by rw [hab, hbs], h1, h2, ha1, ha2⟩
  · rintro ⟨a, t1, t2, b, hs, h1, h2, ha1, ha2⟩
    exact ⟨a, '_' :: (t1 ++ '_' :: (t2 ++ '_' :: b)), hs,
      (uuuAt_iff _).mpr ⟨t1, t2, b, rfl, h1, h2, ha1, ha2⟩⟩

theorem r3B_iff (s : Str) : r3B s = true ↔ RejTrailing s := by
  simp only [r3B, decide_eq_true_eq, trailingDigits]
  constructor
  · intro h
    refine ⟨(s.reverse.dropWhile digitB).reverse, (s.reverse.takeWhile digitB).reverse, ?_, ?_, ?_⟩
    · rw [← List.reverse_append, List.takeWhile_append_dropWhile, List.reverse_reverse]
    · simpa using h
    · intro c hc
      exact mem_takeWhile_sat _ _ c (List.mem_reverse.mp hc)
  · rintro ⟨a, d, hs, hlen, hd⟩
    subst hs
    rw [List.reverse_append,
      takeWhile_app_all _ _ _ (fun c hc => hd c (List.mem_reverse.mp hc))]
    simp only [List.length_append, List.length_reverse]
    omega

theorem r4B_iff (s : Str) : r4B s = true ↔ RejFramework s := by
  simp only [r4B, Bool.or_eq_true, isPfx_iff, RejFramework]
  tauto

theorem r5B_iff (s : Str) : r5B s = true ↔ RejSuffix s := by
  simp only [r5B, Bool.and_eq_true, decide_eq_true_eq, beq_iff_eq, trailingDigits]
  constructor
  · rintro ⟨⟨h1, h4⟩, hget⟩
    set tw := s.reverse.takeWhile digitB with htw
    have hsplit : s.reverse = tw ++ s.reverse.dropWhile digitB := by
      rw [htw, List.takeWhile_append_dropWhile]
    have hget2 : (s.reverse.dropWhile digitB)[0]? = some '_' := by
      have hx := hget
      rw [hsplit, List.getElem?_append_right (by omega)] at hx
      simpa using hx
    cases hdrop : s.reverse.dropWhile digitB with
    | nil => rw [hdrop] at hget2; exact absurd hget2 (by simp)
    | cons c rest =>
      rw [hdrop] at hget2
      simp only [List.getElem?_cons_zero, Option.some.injEq] at hget2
      subst hget2
      refine ⟨rest.reverse, tw.reverse, ?_, by simpa using h1, by simpa using h4, ?_⟩
      · have hs2 : s.reverse = tw ++ '_' :: rest := by rw [hsplit, hdrop]
        calc s = s.reverse.reverse := (List.reverse_reverse s).symm
          _ = (tw ++ '_' :: rest).reverse := by rw [hs2]
          _ = rest.reverse ++ '_' :: tw.reverse := by simp
      · intro c hc
        exact mem_takeWhile_sat _ _ c (List.mem_reverse.mp hc)
  · rintro ⟨a, d, hs, h1, h4, hd⟩
    subst hs
    have hu : digitB '_' = false := by decide
    have hrev : (a ++ '_' :: d).reverse = d.reverse ++ '_' :: a.reverse := by simp
    have htw : (a ++ '_' :: d).reverse.takeWhile digitB = d.reverse := by
      rw [hrev, takeWhile_app_all _ _ _ (fun c hc => hd c (List.mem_reverse.mp hc))]
      simp [List.takeWhile_cons, hu]
    refine ⟨⟨?_, ?_⟩, ?_⟩
    · rw [htw]; simpa using h1
    · rw [htw]; simpa using h4
    · rw [htw, hrev, List.getElem?_append_right (by simp)]
      simp

/-- Helper: the Boolean cascade of `isStableId` rejects a nonempty identifier
exactly when one of the five specified shapes applies. -/
theorem isStableId_false_iff (s : Str) (h : s ≠ []) :
    isStableId s = false ↔ RejectSpec s := by
  have hne : s.isEmpty = false := by
    cases s with
    | nil => exact absurd rfl h
    | cons c cs => rfl
  simp only [isStableId, hne, if_false, RejectSpec]
  rw [← r1B_iff, ← containsUUU_iff_tokens, ← r3B_iff, ← r4B_iff, ← r5B_iff]
  by_cases h1 : r1B s = true <;> by_cases h2 : containsUUU s = true <;>
    by_cases h3 : r3B s = true <;> by_cases h4 : r4B s = true <;>
    by_cases h5 : r5B s = true <;>
    simp [h1, h2, h3, h4, h5]

/-! ## More string utilities: splitting, joining, trimming, numbers. -/

/-- Split at every separator character, keeping empty groups
(model of JavaScript `String.prototype.split` with a one-character
separator). -/
def splitByP (p : Char → Bool) : Str → List Str
  | [] => [[]]
  | c :: rest =>
    if p c then [] :: splitByP p rest
    else
      match splitByP p rest with
      | [] => [[c]]
      | g :: gs => (c :: g) :: gs

/-- `splitCh ch s` is `s.split(ch)`. -/
def splitCh (ch : Char) (s : Str) : List Str := splitByP (fun c => c == ch) s

/-- Join a list of strings with a separator (model of `Array.prototype.join`). -/
def interc (sep : Str) : List Str → Str
  | [] => []
  | [x] => x
  | x :: y :: ys => x ++ sep ++ interc sep (y :: ys)

/-- Whitespace test used by `trim` and `normalize-space`. -/
def wsB (c : Char) : Bool :=
  c.toNat == 32 || c.toNat == 9 || c.toNat == 10 || c.toNat == 13 || c.toNat == 12

/-- Model of `String.prototype.trim`. -/
def trimS (s : Str) : Str := ((s.dropWhile wsB).reverse.dropWhile wsB).reverse

/-- Model of the XPath `normalize-space` function: trim and collapse
whitespace runs to single spaces. -/
def normSpace (s : Str) : Str :=
  interc [' '] ((splitByP wsB s).filter (fun g => !g.isEmpty))

/-- Is `pat` a contiguous substring of `s` (model of `String.prototype.includes`
and of the XPath `contains` function)? -/
def isSubstr (pat : Str) (s : Str) : Bool :=
  match s with
  | [] => pat.isEmpty
  | _ :: rest => isPfx pat s || isSubstr pat rest

/-- Break a string at the first occurrence of a character, dropping it. -/
def breakCh (ch : Char) : Str → Option (Str × Str)
  | [] => none
  | c :: rest =>
    if c == ch then some ([], rest)
    else (breakCh ch rest).map (fun ab => (c :: ab.1, ab.2))

/-- The decimal digit characters. -/
def digitC : Nat → Char
  | 0 => '0'
  | 1 => '1'
  | 2 => '2'
  | 3 => '3'
  | 4 => '4'
  | 5 => '5'
  | 6 => '6'
  | 7 => '7'
  | 8 => '8'
  | _ => '9'

/-- Fueled digit expansion; the wrapper below always supplies enough fuel. -/
def natDigitsF : Nat → Nat → Str
  | 0, _ => []
  | fuel + 1, n => if n < 10 then [digitC n] else natDigitsF fuel (n / 10) ++ [digitC (n % 10)]

/-- Decimal rendering of a natural number (model of JavaScript number-to-string
interpolation for the nonnegative integers the generator prints). -/
def natDigits (n : Nat) : Str := natDigitsF (n + 1) n

theorem natDigitsF_stable (n : Nat) : ∀ fuel1 fuel2 : Nat, n < fuel1 → n < fuel2 →
    natDigitsF fuel1 n = natDigitsF fuel2 n := by
  induction n using Nat.strong_induction_on with
  | _ n ih =>
    intro fuel1 fuel2 h1 h2
    cases fuel1 with
    | zero => omega
    | succ f1 =>
      cases fuel2 with
      | zero => omega
      | succ f2 =>
        simp only [natDigitsF]
        by_cases h : n < 10
        · simp [h]
        · have hdiv : n / 10 < n := Nat.div_lt_self (by omega) (by omega)
          simp only [if_neg h]
          rw [ih (n / 10) hdiv f1 f2 (by omega) (by omega)]

theorem natDigits_step (n : Nat) :
    natDigits n = if n < 10 then [digitC n] else natDigits (n / 10) ++ [digitC (n % 10)] := by
  rw [natDigits, natDigitsF]
  by_cases h : n < 10
  · simp [h]
  · have hdiv : n / 10 < n := Nat.div_lt_self (by omega) (by omega)
    simp only [if_neg h]
    rw [natDigitsF_stable (n / 10) n (n / 10 + 1) (by omega) (by omega)]
    rfl

/-- Numeric value of a digit string. -/
def valDigits (s : Str) : Nat := s.foldl (fun a c => 10 * a + (c.toNat - 48)) 0

theorem digitC_digitB (n : Nat) : digitB (digitC n) = true := by
  rcases n with _ | _ | _ | _ | _ | _ | _ | _ | _ | n
  all_goals first
    | decide
    | (show digitB '9' = true
       decide)

theorem digitC_toNat (n : Nat) (h : n < 10) : (digitC n).toNat = 48 + n := by
  rcases n with _ | _ | _ | _ | _ | _ | _ | _ | _ | _ | n <;> first | decide | omega

theorem natDigits_all_digit (n : Nat) : ∀ c ∈ natDigits n, digitB c = true := by
  induction n using Nat.strong_induction_on with
  | _ n ih =>
    rw [natDigits_step]
    split
    · intro c hc
      rw [List.mem_singleton] at hc
      subst hc
      exact digitC_digitB n
    · intro c hc
      rcases List.mem_append.mp hc with h | h
      · exact ih (n / 10) (Nat.div_lt_self (by omega) (by omega)) c h
      · rw [List.mem_singleton] at h
        subst h
        exact digitC_digitB (n % 10)

theorem natDigits_ne_nil (n : Nat) : natDigits n ≠ [] := by
  rw [natDigits_step]
  split
  · simp
  · simp

theorem valDigits_append_one (xs : Str) (c : Char) :
    valDigits (xs ++ [c]) = 10 * valDigits xs + (c.toNat - 48) := by
  simp [valDigits, List.foldl_append]

theorem valDigits_natDigits (n : Nat) : valDigits (natDigits n) = n := by
  induction n using Nat.strong_induction_on with
  | _ n ih =>
    rw [natDigits_step]
    split
    · rename_i h
      simp [valDigits, digitC_toNat n h]
    · rename_i h
      rw [valDigits_append_one, ih (n / 10) (Nat.div_lt_self (by omega) (by omega)),
        digitC_toNat (n % 10) (Nat.mod_lt _ (by omega))]
      omega

/-! ## The DOM model.

An element carries its `tagName` (exactly as the DOM reports it), its
namespace URI, its attribute list, its direct text content, its light-DOM
child elements, and an optionally attached shadow root (modelled as the list
of the shadow root's top-level child elements).  Elements inside the document
are addressed by their child-index path from the root element. -/

inductive XElem : Type where
  | mk (tag : Str) (ns : Str) (attrs : List (Str × Str)) (ownText : Str)
      (children : List XElem) (shadow : Option (List XElem)) : XElem

def XElem.tag : XElem → Str
  | .mk t _ _ _ _ _ => t

def XElem.ns : XElem → Str
  | .mk _ n _ _ _ _ => n

def XElem.attrs : XElem → List (Str × Str)
  | .mk _ _ a _ _ _ => a

def XElem.ownText : XElem → Str
  | .mk _ _ _ o _ _ => o

def XElem.children : XElem → List XElem
  | .mk _ _ _ _ c _ => c

def XElem.shadow : XElem → Option (List XElem)
  | .mk _ _ _ _ _ s => s

/-- The default (HTML) namespace URI. -/
def nsHTML : Str := "http://www.w3.org/1999/xhtml".data

/-- The SVG namespace URI. -/
def nsSVG : Str := "http://www.w3.org/2000/svg".data

/-- A junk element used to totalize position lookups; never reachable for
valid positions. -/
def dummyElem : XElem := XElem.mk [] [] [] [] [] none

mutual

/-- Concatenated descendant text (model of `Node.textContent` for elements:
the element's direct text followed by its children's text, shadow content
excluded). -/
def elemText : XElem → Str
  | .mk _ _ _ own children _ => own ++ elemTextList children

def elemTextList : List XElem → Str
  | [] => []
  | c :: cs => elemText c ++ elemTextList cs

end

mutual

/-- All element positions of the tree rooted at a given position, in document
(preorder) order. -/
def posPre : XElem → List Nat → List (List Nat)
  | .mk _ _ _ _ children _, p => p :: posPreList children p 0

def posPreList : List XElem → List Nat → Nat → List (List Nat)
  | [], _, _ => []
  | c :: cs, p, i => posPre c (p ++ [i]) ++ posPreList cs p (i + 1)

end

/-- The subtree at a child-index path. -/
def getSubtree : XElem → List Nat → Option XElem
  | e, [] => some e
  | e, i :: rest =>
    match e.children[i]? with
    | some c => getSubtree c rest
    | none => none

/-- Totalized subtree lookup. -/
def elemAtD (doc : XElem) (p : List Nat) : XElem := (getSubtree doc p).getD dummyElem

/-- Attribute lookup (model of `Element.getAttribute`, `none` = attribute
absent = JavaScript `null`). -/
def getAttr (e : XElem) (name : Str) : Option Str :=
  (e.attrs.find? (fun a => a.1 == name)).map (fun a => a.2)

/-- Model of `Element.id`: the id attribute's value, or the empty string. -/
def idOf (e : XElem) : Str := (getAttr e ( "id".data)).getD []

/-- Split the last index off a position. -/
def splitLast : List Nat → Option (List Nat × Nat)
  | [] => none
  | [i] => some ([], i)
  | x :: y :: rest =>
    (splitLast (y :: rest)).map (fun qi => (x :: qi.1, qi.2))

/-! ## Model of the host XPath engine (`doc.evaluate`) on the query fragment
the generator emits.

The queries the generator produces are: an anchor — either `//test[preds]`
searching the whole document, or an absolute path from the document root —
followed by a chain of indexed child / `following-sibling` /
`preceding-sibling` steps.  An unprefixed name test matches HTML-namespace
elements by case-insensitive tag name and nothing else (which is why the
source emits `*[local-name()='…']` for SVG); a `local-name` wildcard test
matches any namespace by lowercased local name. -/

inductive NTest : Type where
  | anyT : NTest
  | tagT (t : Str) : NTest
  | localT (t : Str) : NTest
deriving DecidableEq

inductive XPred : Type where
  | attrEq (n v : Str) : XPred
  | normSelf (t : Str) : XPred
  | normTxt (t : Str) : XPred
  | classContains (c : Str) : XPred
deriving DecidableEq

inductive XAxis : Type where
  | childA : XAxis
  | follA : XAxis
  | precA : XAxis
deriving DecidableEq

structure RStep : Type where
  axis : XAxis
  test : NTest
  idx : Nat
deriving DecidableEq

structure AnchorQ : Type where
  test : NTest
  preds : List XPred
deriving DecidableEq

inductive XQuery : Type where
  | anchored (a : AnchorQ) (steps : List RStep) : XQuery
  | absolute (steps : List RStep) : XQuery
deriving DecidableEq

/-- ASCII lowercasing of one character (model of `toLowerCase` on the ASCII
range, which is all the source ever lowercases under the documents we treat). -/
def lowChar (c : Char) : Char :=
  if 65 ≤ c.toNat ∧ c.toNat ≤ 90 then Char.ofNat (c.toNat + 32) else c

/-- ASCII lowercasing of a string. -/
def lowStr (s : Str) : Str := s.map lowChar

/-- Does an element match a node test? -/
def ntestB (e : XElem) : NTest → Bool
  | .anyT => true
  | .tagT t => e.ns == nsHTML && lowStr e.tag == t
  | .localT t => lowStr e.tag == t

/-- Does an element at a position satisfy a predicate? -/
def predB (doc : XElem) (p : List Nat) : XPred → Bool
  | .attrEq n v => getAttr (elemAtD doc p) n == some v
  | .normSelf t => normSpace (elemText (elemAtD doc p)) == t
  | .normTxt t => normSpace ((elemAtD doc p).ownText) == t
  | .classContains c => isSubstr c ((getAttr (elemAtD doc p) ( "class".data)).getD [])

/-- 1-based selection from a list. -/
def pickNth {α : Type} (l : List α) (idx : Nat) : Option α :=
  if idx = 0 then none else l[idx - 1]?

/-- One navigation step of the evaluator, from a single context position. -/
def stepFrom (doc : XElem) (p : List Nat) (st : RStep) : Option (List Nat) :=
  match st.axis with
  | .childA =>
    let n := (elemAtD doc p).children.length
    let cands := (List.range n).filter (fun i => ntestB (elemAtD doc (p ++ [i])) st.test)
    (pickNth cands st.idx).map (fun i => p ++ [i])
  | .follA =>
    match splitLast p with
    | none => none
    | some (q, i) =>
      let n := (elemAtD doc q).children.length
      let cands := (List.range n).filter
        (fun j => decide (i < j) && ntestB (elemAtD doc (q ++ [j])) st.test)
      (pickNth cands st.idx).map (fun j => q ++ [j])
  | .precA =>
    match splitLast p with
    | none => none
    | some (q, i) =>
      let n := (elemAtD doc q).children.length
      let cands := ((List.range n).filter
        (fun j => decide (j < i) && ntestB (elemAtD doc (q ++ [j])) st.test)).reverse
      (pickNth cands st.idx).map (fun j => q ++ [j])

/-- Run a chain of steps from one context position. -/
def runSteps (doc : XElem) : List RStep → List Nat → Option (List Nat)
  | [], p => some p
  | st :: rest, p =>
    match stepFrom doc p st with
    | some p2 => runSteps doc rest p2
    | none => none

/-- Evaluate a parsed query against the document, returning the matched
positions. -/
def evalQuery (doc : XElem) : XQuery → List (List Nat)
  | .anchored a steps =>
    let starts := (posPre doc []).filter
      (fun p => ntestB (elemAtD doc p) a.test && a.preds.all (predB doc p))
    starts.filterMap (runSteps doc steps)
  | .absolute steps =>
    match steps with
    | [] => []
    | st :: rest =>
      match st.axis with
      | .childA =>
        let cands := if ntestB doc st.test then [([] : List Nat)] else []
        match (pickNth cands st.idx).bind (fun p => runSteps doc rest p) with
        | some p => [p]
        | none => []
      | _ => []

/-! ## Parsing the emitted query strings.

`doc.evaluate` receives plain strings; the model parser recognizes the
fragment the generator emits (and rejects everything else, which the
uniqueness validator then treats as an evaluation failure). -/

/-- The apostrophe used as the XPath string-literal quote. -/
def sq : Char := '\''

/-- Characters allowed in parsed names (tags and attribute names). -/
def nameCharB (c : Char) : Bool := alnumB c || c == '-' || c == '_'

/-- Literal `[local-name()='` that follows `*` in a namespace-safe node test. -/
def lnOpen : Str := "[local-name()=".data ++ [sq]

/-- Parse a node test at the head of a string, returning the rest. -/
def parseNodeTest (s : Str) : Option (NTest × Str) :=
  match s with
  | [] => none
  | c :: rest =>
    if c == '*' then
      if isPfx lnOpen rest then
        match breakCh sq (rest.drop lnOpen.length) with
        | some (t, rest3) =>
          match rest3 with
          | c2 :: rest4 => if c2 == ']' then some (NTest.localT t, rest4) else none
          | [] => none
        | none => none
      else some (NTest.anyT, rest)
    else
      let nm := s.takeWhile nameCharB
      if nm.isEmpty then none
      else some (NTest.tagT nm, s.dropWhile nameCharB)

/-- Split a string at the first `::`, if any (a lone trailing `:` ends the
scan with no axis found, like an unparseable prefix). -/
def splitAxis : Str → Option (Str × Str)
  | [] => none
  | [_] => none
  | c :: c2 :: rest =>
    if c == ':' then (if c2 == ':' then some ([], rest) else none)
    else (splitAxis (c2 :: rest)).map (fun ab => (c :: ab.1, ab.2))

/-- Parse a step body `test[index]` for a given axis; the step must end right
after the index predicate. -/
def parseStepBody (ax : XAxis) (s : Str) : Option RStep :=
  match parseNodeTest s with
  | none => none
  | some (t, rest) =>
    match rest with
    | [] => none
    | c :: rest2 =>
      if c == '[' then
        let ds := rest2.takeWhile digitB
        if ds.isEmpty then none
        else
          match rest2.dropWhile digitB with
          | [] => none
          | c2 :: rest3 =>
            if c2 == ']' && rest3.isEmpty then
              let k := valDigits ds
              if k = 0 then none else some ⟨ax, t, k⟩
            else none
      else none

/-- Parse one `/`-separated step: an optional sibling axis, then `test[index]`. -/
def parseOneStep (s : Str) : Option RStep :=
  match splitAxis s with
  | some (ax, rest) =>
    if ax == "following-sibling".data then parseStepBody XAxis.follA rest
    else if ax == "preceding-sibling".data then parseStepBody XAxis.precA rest
    else none
  | none => parseStepBody XAxis.childA s

/-- Parse a whole string of the form `'v'`. -/
def parseQuotedAll (s : Str) : Option Str :=
  match s with
  | [] => none
  | c :: rest =>
    if c == sq then
      match breakCh sq rest with
      | some (v, rest2) => if rest2.isEmpty then some v else none
      | none => none
    else none

/-- Find the first occurrence of a separator string, splitting around it. -/
def findSplit (pat : Str) : Str → Option (Str × Str)
  | [] => none
  | c :: rest =>
    if isPfx pat (c :: rest) then some ([], (c :: rest).drop pat.length)
    else (findSplit pat rest).map (fun ab => (c :: ab.1, ab.2))

/-- Split on every occurrence of a separator string (fueled). -/
def splitOnSep (pat : Str) : Nat → Str → List Str
  | 0, s => [s]
  | fuel + 1, s =>
    match findSplit pat s with
    | some (a, b) => a :: splitOnSep pat fuel b
    | none => [s]

/-- Parse one predicate conjunct. -/
def parseOnePred (g : Str) : Option XPred :=
  match g with
  | [] => none
  | c :: rest =>
    if c == '@' then
      let nm := rest.takeWhile nameCharB
      if nm.isEmpty then none
      else
        match rest.dropWhile nameCharB with
        | [] => none
        | c2 :: rest2 =>
          if c2 == '=' then (parseQuotedAll rest2).map (XPred.attrEq nm) else none
    else if isPfx ( "normalize-space(.)=".data) g then
      (parseQuotedAll (g.drop 19)).map XPred.normSelf
    else if isPfx ( "normalize-space(text())=".data) g then
      (parseQuotedAll (g.drop 24)).map XPred.normTxt
    else if isPfx ( "contains(@class, ".data) g then
      match g.drop 17 with
      | [] => none
      | c2 :: rest2 =>
        if c2 == sq then
          match breakCh sq rest2 with
          | some (v, rest3) => if rest3 == [')'] then some (XPred.classContains v) else none
          | none => none
        else none
    else none

/-- Parse a bracket group's content: one predicate, or an `and`-chain. -/
def parsePredGroup (g : Str) : Option (List XPred) :=
  match parseOnePred g with
  | some p => some [p]
  | none => (splitOnSep ( " and ".data) g.length g).mapM parseOnePred

/-- Parse the sequence of bracketed predicate groups of an anchor (fueled). -/
def parsePreds : Nat → Str → Option (List XPred)
  | _, [] => some []
  | 0, _ => none
  | fuel + 1, c :: rest =>
    if c == '[' then
      match breakCh ']' rest with
      | some (inside, rest2) =>
        match parsePredGroup inside with
        | some ps =>
          match parsePreds fuel rest2 with
          | some more => some (ps ++ more)
          | none => none
        | none => none
      | none => none
    else none

/-- Parse the first segment of a `//…` query: node test plus predicates. -/
def parseAnchorSeg (s : Str) : Option AnchorQ :=
  match parseNodeTest s with
  | none => none
  | some (t, rest) => (parsePreds rest.length rest).map (AnchorQ.mk t)

/-- Parse a full query string. -/
def parseXPathQ (s : Str) : Option XQuery :=
  match s with
  | [] => none
  | [_] => none
  | c1 :: c2 :: rest =>
    if c1 == '/' && c2 == '/' then
      match splitCh '/' rest with
      | [] => none
      | first :: stepSegs =>
        match parseAnchorSeg first with
        | none => none
        | some a =>
          match stepSegs.mapM parseOneStep with
          | some steps => some (XQuery.anchored a steps)
          | none => none
    else if c1 == '/' then
      match (splitCh '/' (c2 :: rest)).mapM parseOneStep with
      | some steps => some (XQuery.absolute steps)
      | none => none
    else none

/-- Model of `doc.evaluate(xpath, doc, …, ORDERED_NODE_SNAPSHOT_TYPE, …)`:
an unparseable query is an evaluation failure (the thrown exception),
otherwise the ordered list of matched positions is returned. -/
def evalXPathStr (s : Str) (doc : XElem) : Except Unit (List (List Nat)) :=
  match parseXPathQ s with
  | some q => .ok (evalQuery doc q)
  | none => .error ()

/-! ## Evaluation with a shadow root as context (used only by the resolver's
relative-segment branch). -/

/-- Node lookup inside a shadow root's forest of top-level children. -/
def forestAt (forest : List XElem) : List Nat → Option XElem
  | [] => none
  | i :: rest =>
    match forest[i]? with
    | some t => getSubtree t rest
    | none => none

/-- Totalized forest lookup. -/
def forestElemD (forest : List XElem) (p : List Nat) : XElem :=
  (forestAt forest p).getD dummyElem

/-- All positions of a forest in document order. -/
def posPreForest (forest : List XElem) : List (List Nat) :=
  forest.enum.flatMap (fun ia => posPre ia.2 [ia.1])

/-- Sibling list of a position within a forest. -/
def forestSibs (forest : List XElem) (q : List Nat) : List XElem :=
  if q.isEmpty then forest else (forestElemD forest q).children

def predBF (forest : List XElem) (p : List Nat) : XPred → Bool
  | .attrEq n v => getAttr (forestElemD forest p) n == some v
  | .normSelf t => normSpace (elemText (forestElemD forest p)) == t
  | .normTxt t => normSpace ((forestElemD forest p).ownText) == t
  | .classContains c => isSubstr c ((getAttr (forestElemD forest p) ( "class".data)).getD [])

def stepFromF (forest : List XElem) (p : List Nat) (st : RStep) : Option (List Nat) :=
  match st.axis with
  | .childA =>
    let n := (forestElemD forest p).children.length
    let cands := (List.range n).filter (fun i => ntestB (forestElemD forest (p ++ [i])) st.test)
    (pickNth cands st.idx).map (fun i => p ++ [i])
  | .follA =>
    match splitLast p with
    | none => none
    | some (q, i) =>
      let sibs := forestSibs forest q
      let cands := (List.range sibs.length).filter
        (fun j => decide (i < j) && ntestB (forestElemD forest (q ++ [j])) st.test)
      (pickNth cands st.idx).map (fun j => q ++ [j])
  | .precA =>
    match splitLast p with
    | none => none
    | some (q, i) =>
      let sibs := forestSibs forest q
      let cands := ((List.range sibs.length).filter
        (fun j => decide (j < i) && ntestB (forestElemD forest (q ++ [j])) st.test)).reverse
      (pickNth cands st.idx).map (fun j => q ++ [j])

def runStepsF (forest : List XElem) : List RStep → List Nat → Option (List Nat)
  | [], p => some p
  | st :: rest, p =>
    match stepFromF forest p st with
    | some p2 => runStepsF forest rest p2
    | none => none

/-- Evaluate an anchored (descendant-search) query with a shadow root as the
context scope. -/
def evalAnchoredF (forest : List XElem) (a : AnchorQ) (steps : List RStep) :
    List (List Nat) :=
  let starts := (posPreForest forest).filter
    (fun p => ntestB (forestElemD forest p) a.test && a.preds.all (predBF forest p))
  starts.filterMap (runStepsF forest steps)

/-! ## Embedding of the generator source (`src/generateXPath.js`).

Elements are referred to by `(doc, position)`; shadow-tree elements by a
`ShadowLoc` recording the document position of the outermost host and the
chain of per-shadow-root paths, outermost first. -/

/-- Source constant `STABLE_ATTRIBUTES` (lines 17-25). -/
def STABLE_ATTRIBUTES : List Str :=
  [ "data-testid".data, "data-cy".data, "data-qa".data, "id".data,
    "name".data, "role".data, "placeholder".data]

/-- Source constant `UNIQUE_TAG_WHITELIST` (lines 28-51). -/
def UNIQUE_TAG_WHITELIST : List Str :=
  [ "body".data, "main".data, "header".data, "footer".data, "nav".data,
    "aside".data, "h1".data, "h2".data, "h3".data, "h4".data, "h5".data,
    "h6".data, "form".data, "search".data, "video".data, "audio".data,
    "canvas".data, "iframe".data, "table".data, "thead".data, "tbody".data,
    "tfoot".data]

def MAX_ANCESTOR_DEPTH : Nat := 50
def MAX_STABLE_TEXT_LENGTH : Nat := 40
def MIN_STABLE_TEXT_LENGTH : Nat := 2
def MAX_LABEL_LENGTH : Nat := 30

/-- Embedding of `isStableClass` (source lines 443-449). -/
def isStableClass (s : Str) : Bool :=
  if s.contains ':' || s.contains '[' then false
  else if (isPfx ( "css-".data) s && !(s.drop 4).isEmpty && (s.drop 4).all alnumB) ||
      (isPfx ( "sc-".data) s && !(s.drop 3).isEmpty && (s.drop 3).all alnumB) then false
  else if decide (10 ≤ s.length) && s.all alnumB then false
  else if s.any digitB then false
  else true

/-- Matcher for one capitalized word `[A-Z][a-z]+`. -/
def capWordB : Str → Bool
  | [] => false
  | c :: rest => upperB c && !rest.isEmpty && rest.all lowerB

/-- Matcher for the two/three-capitalized-words person-name regex of
`hasStableText`. -/
def nameLikeB (t : Str) : Bool :=
  let parts := splitCh ' ' t
  (parts.length == 2 || parts.length == 3) && parts.all capWordB

/-- Embedding of `hasStableText` (source lines 451-466). -/
def hasStableText (e : XElem) : Bool :=
  let text := trimS (elemText e)
  if text.isEmpty then false
  else if decide (MAX_STABLE_TEXT_LENGTH < text.length) ||
      decide (text.length < MIN_STABLE_TEXT_LENGTH) then false
  else if nameLikeB text then false
  else if text.all lowerB then false
  else if !(text.all (fun c => alphaB c || c == ' ')) then false
  else true

/-- Embedding of `escapeXPathString` (source lines 539-543). -/
def escapeXPathString (s : Str) : Str :=
  if !(s.contains sq) then s
  else
    let parts := (splitCh sq s).map (fun p => sq :: (p ++ [sq]))
    "concat(".data ++ interc ([','] ++ ( " \"".data) ++ [sq] ++ ( "\", ".data)) parts ++ [')']

/-! ### Selector string renderers (the template literals of the source). -/

/-- `//*[@id='…']`. -/
def idSel (id : Str) : Str :=
  '/' :: '/' :: '*' :: '[' :: '@' :: ( "id=".data ++ sq :: (id ++ [sq, ']']))

/-- `//nodeTest[@name='v']`. -/
def attrSel (nodeTest name v : Str) : Str :=
  '/' :: '/' :: (nodeTest ++ '[' :: '@' :: (name ++ '=' :: sq :: (v ++ [sq, ']'])))

/-- `//nodeTest[normalize-space(.)='…']`. -/
def textSelfSel (nodeTest text : Str) : Str :=
  '/' :: '/' :: (nodeTest ++ ( "[normalize-space(.)=".data) ++
    sq :: (escapeXPathString text ++ [sq, ']']))

/-- `//tag[normalize-space(text())='…']`. -/
def labelTextSel (tagLower text : Str) : Str :=
  '/' :: '/' :: (tagLower ++ ( "[normalize-space(text())=".data) ++
    sq :: (escapeXPathString text ++ [sq, ']']))

/-- Embedding of `getNodeTest` (source lines 526-532): the
`instanceof SVGElement` disjunct collapses onto the namespace test in the
model, where an SVG element is exactly an element in the SVG namespace. -/
def getNodeTest (e : XElem) : Str :=
  let tag := lowStr e.tag
  if e.ns == nsSVG then '*' :: '[' :: ( "local-name()=".data) ++ sq :: (tag ++ [sq, ']'])
  else tag

/-- Embedding of `getElementIndex` (source lines 504-512): 1 plus the number
of preceding siblings with the same `tagName`. -/
def getElementIndex (doc : XElem) (p : List Nat) : Nat :=
  match splitLast p with
  | none => 1
  | some (q, i) =>
    let sibs := (elemAtD doc q).children
    let myTag := (elemAtD doc p).tag
    1 + ((sibs.take i).filter (fun s => s.tag == myTag)).length

/-- One `nodeTest[index]` segment, as produced both by `getAbsolutePath` and
by the ancestor-path accumulation. -/
def stepStr (doc : XElem) (p : List Nat) : Str :=
  getNodeTest (elemAtD doc p) ++ '[' :: (natDigits (getElementIndex doc p) ++ [']'])

/-- The bottom-up walk of `getAbsolutePath` (source lines 514-524): `unshift`
one `nodeTest[index]` segment per element while climbing `parentElement`
pointers; the position is consumed from its deep end (reversed). -/
def absWalk (doc : XElem) : List Nat → List Str → List Str
  | [], acc => stepStr doc [] :: acc
  | i :: up, acc => absWalk doc up (stepStr doc ((i :: up).reverse) :: acc)

/-- The segments of `getAbsolutePath`, root first. -/
def absSegs (doc : XElem) (p : List Nat) : List Str := absWalk doc p.reverse []

/-- Embedding of `getAbsolutePath`. -/
def getAbsolutePath (doc : XElem) (p : List Nat) : Str :=
  '/' :: interc (['/']) (absSegs doc p)

/-- Embedding of `isUnique` (source lines 484-497): an evaluation failure is
caught and reported as non-unique. -/
def isUnique (xp : Str) (doc : XElem) : Bool :=
  match evalXPathStr xp doc with
  | .ok l => l.length == 1
  | .error _ => false

/-- Embedding of `isUniqueId` (source lines 499-501):
`querySelectorAll("[id='…']").length === 1`. -/
def isUniqueId (id : Str) (doc : XElem) : Bool :=
  ((posPre doc []).filter (fun p => idOf (elemAtD doc p) == id)).length == 1

/-- Embedding of `getUniqueTagNameSelector` (source lines 194-200). -/
def getUniqueTagNameSelector (doc : XElem) (p : List Nat) : Option Str :=
  let tag := lowStr (elemAtD doc p).tag
  if !(UNIQUE_TAG_WHITELIST.contains tag) then none
  else
    let xp := '/' :: '/' :: getNodeTest (elemAtD doc p)
    if isUnique xp doc then some xp else none

/-- Inner loop of `getUniqueStableAttribute` (source lines 468-481). -/
def findStableAttr (doc : XElem) (p : List Nat) : List Str → Option (Str × Str)
  | [] => none
  | a :: rest =>
    match getAttr (elemAtD doc p) a with
    | none => findStableAttr doc p rest
    | some v =>
      if v.isEmpty || !isStableId v then findStableAttr doc p rest
      else if isUnique (attrSel (getNodeTest (elemAtD doc p)) a v) doc then some (a, v)
      else findStableAttr doc p rest

def getUniqueStableAttribute (doc : XElem) (p : List Nat) : Option (Str × Str) :=
  findStableAttr doc p STABLE_ATTRIBUTES

/-- Embedding of `getLabelAnchoredPath` (source lines 202-214). -/
def getLabelAnchoredPath (doc : XElem) (p : List Nat) : Option Str :=
  match splitLast p with
  | none => none
  | some (q, i) =>
    if i = 0 then none
    else
      let prev := elemAtD doc (q ++ [i - 1])
      if !hasStableText prev then none
      else
        let text := trimS (elemText prev)
        if decide (MAX_LABEL_LENGTH < text.length) ||
            decide (text.length < MIN_STABLE_TEXT_LENGTH) then none
        else
          let labelXp := labelTextSel (lowStr prev.tag) text
          if !isUnique labelXp doc then none
          else some (labelXp ++ ( "/following-sibling::".data) ++
            getNodeTest (elemAtD doc p) ++ ('[' :: '1' :: [']']))

/-- Embedding of `getDirectSelectors` (source lines 165-192). -/
def getDirectSelectors (doc : XElem) (p : List Nat) : List Str :=
  let e := elemAtD doc p
  let nodeTest := getNodeTest e
  let s1 :=
    match getUniqueStableAttribute doc p with
    | some av => [attrSel nodeTest av.1 av.2]
    | none => []
  let s2 :=
    match getLabelAnchoredPath doc p with
    | some xp => [xp]
    | none => []
  let s3 :=
    if hasStableText e then
      let xp := textSelfSel nodeTest (trimS (elemText e))
      if isUnique xp doc then [xp] else []
    else []
  s1 ++ s2 ++ s3

/-- Model of `Element.classList`: whitespace-split class attribute with
duplicates removed, first occurrences kept. -/
def dedupFuel : Nat → List Str → List Str
  | 0, _ => []
  | _, [] => []
  | fuel + 1, x :: xs => x :: dedupFuel fuel (xs.filter (fun y => !(y == x)))

def dedupKeepFirst (l : List Str) : List Str := dedupFuel l.length l

def classList (e : XElem) : List Str :=
  dedupKeepFirst ((splitByP wsB ((getAttr e ( "class".data)).getD [])).filter
    (fun g => !g.isEmpty))

/-- Embedding of `buildClassPredicate` (source lines 242-244). -/
def buildClassPredicate (classes : List Str) : Str :=
  interc ( " and ".data)
    (classes.map (fun c => "contains(@class, ".data ++ sq :: (c ++ [sq, ')'])))

/-- `//nodeTest[classPredicate]`. -/
def classSel (nodeTest : Str) (classes : List Str) : Str :=
  '/' :: '/' :: (nodeTest ++ '[' :: (buildClassPredicate classes ++ [']']))

/-- Embedding of `getClassSelectors` (source lines 217-240). -/
def getClassSelectors (doc : XElem) (p : List Nat) : List Str :=
  let e := elemAtD doc p
  let nodeTest := getNodeTest e
  let valid := (classList e).filter isStableClass
  if valid.isEmpty then []
  else
    let allXp := classSel nodeTest valid
    let s1 := if isUnique allXp doc then [allXp] else []
    let singles := valid.filterMap (fun c =>
      let xp := classSel nodeTest [c]
      if isUnique xp doc then some xp else none)
    s1 ++ singles

/-- Embedding of `getAnchorXPaths` (source lines 274-315). -/
def getAnchorXPaths (doc : XElem) (p : List Nat) : List Str :=
  let e := elemAtD doc p
  let nodeTest := getNodeTest e
  let a1 :=
    if isUnique ('/' :: '/' :: nodeTest) doc then ['/' :: '/' :: nodeTest] else []
  let a2 :=
    if isStableId (idOf e) && isUniqueId (idOf e) doc then [idSel (idOf e)] else []
  let a3 :=
    match getUniqueStableAttribute doc p with
    | some av => [attrSel nodeTest av.1 av.2]
    | none => []
  let a4 :=
    if hasStableText e then
      let xp := textSelfSel nodeTest (trimS (elemText e))
      if isUnique xp doc then [xp] else []
    else []
  let a5 :=
    let valid := (classList e).filter isStableClass
    if !valid.isEmpty then
      let xp := classSel nodeTest valid
      if isUnique xp doc then [xp] else []
    else []
  a1 ++ a2 ++ a3 ++ a4 ++ a5

/-- Loop of `getAncestorPaths` (source lines 247-272): climb to the parent,
accumulate a `nodeTest[index]` relative path, and emit every anchor of the
parent joined with it; stop at the body, at the root, or at the depth cap.
The position of the current element is consumed from its deep end
(reversed). -/
def ancWalk (doc : XElem) : List Nat → List Str → Nat → List Str
  | [], _, _ => []
  | i :: up, segs, depth =>
    if MAX_ANCESTOR_DEPTH ≤ depth then []
    else
      let p := (i :: up).reverse
      let parent := up.reverse
      let segs2 := stepStr doc p :: segs
      let rel := interc (['/']) segs2
      let here := (getAnchorXPaths doc parent).map (fun a => a ++ '/' :: rel)
      if (elemAtD doc parent).tag == "BODY".data then here
      else here ++ ancWalk doc up segs2 (depth + 1)

def getAncestorPaths (doc : XElem) (p : List Nat) : List Str := ancWalk doc p.reverse [] 0

/-- Embedding of `getSiblingAnchor` (source lines 349-375). -/
def getSiblingAnchor (doc : XElem) (p : List Nat) : Option Str :=
  let e := elemAtD doc p
  let nodeTest := getNodeTest e
  if isUnique ('/' :: '/' :: nodeTest) doc then some ('/' :: '/' :: nodeTest)
  else if isStableId (idOf e) && isUniqueId (idOf e) doc then some (idSel (idOf e))
  else
    match getUniqueStableAttribute doc p with
    | some av => some (attrSel nodeTest av.1 av.2)
    | none =>
      if hasStableText e then
        let xp := textSelfSel nodeTest (trimS (elemText e))
        if isUnique xp doc then some xp else none
      else none

/-- Embedding of `countSameTagBetween` (source lines 377-389). -/
def countSameTagBetween (sibs : List XElem) (start fin : Nat) (tag : Str) : Nat :=
  let lo := min start fin
  let hi := max start fin
  (((sibs.take (hi + 1)).drop (lo + 1)).filter (fun s => lowStr s.tag == tag)).length

/-- Embedding of `getSiblingPaths` (source lines 318-347). -/
def getSiblingPaths (doc : XElem) (p : List Nat) : List Str :=
  match splitLast p with
  | none => []
  | some (q, i) =>
    let e := elemAtD doc p
    let nodeTest := getNodeTest e
    let tagLower := lowStr e.tag
    let sibs := (elemAtD doc q).children
    let prevSel := ((List.range i).reverse).filterMap (fun j =>
      match getSiblingAnchor doc (q ++ [j]) with
      | none => none
      | some anchor =>
        some (anchor ++ ( "/following-sibling::".data) ++ nodeTest ++
          '[' :: (natDigits (countSameTagBetween sibs j i tagLower) ++ [']'])))
    let follSel := ((List.range sibs.length).filter (fun j => decide (i < j))).filterMap
      (fun j =>
        match getSiblingAnchor doc (q ++ [j]) with
        | none => none
        | some anchor =>
          some (anchor ++ ( "/preceding-sibling::".data) ++ nodeTest ++
            '[' :: (natDigits (countSameTagBetween sibs i j tagLower) ++ [']'])))
    prevSel ++ follSel

/-- A candidate: selector string plus strategy score. -/
structure Cand : Type where
  xpath : Str
  score : Nat
deriving DecidableEq

/-- Embedding of `collectAllCandidates` (source lines 103-145). -/
def collectAllCandidates (doc : XElem) (p : List Nat) : List Cand :=
  let e := elemAtD doc p
  let c1 :=
    match getUniqueTagNameSelector doc p with
    | some xp => [Cand.mk xp 90]
    | none => []
  let c2 :=
    if isStableId (idOf e) && isUniqueId (idOf e) doc then [Cand.mk (idSel (idOf e)) 100]
    else []
  let c3 := (getDirectSelectors doc p).map (fun xp => Cand.mk xp 80)
  let c4 := (getAncestorPaths doc p).map (fun xp => Cand.mk xp 70)
  let c5 := (getSiblingPaths doc p).map (fun xp => Cand.mk xp 60)
  let c6 := (getClassSelectors doc p).map (fun xp => Cand.mk xp 40)
  let abs := getAbsolutePath doc p
  let c7 := if isUnique abs doc then [Cand.mk abs 0] else []
  c1 ++ c2 ++ c3 ++ c4 ++ c5 ++ c6 ++ c7

/-- Loop of `dedupeAndValidate` (source lines 147-162). -/
def dedupeGo (doc : XElem) : List Cand → List Str → List Cand
  | [], _ => []
  | c :: rest, seen =>
    if c.xpath.isEmpty || seen.contains c.xpath then dedupeGo doc rest seen
    else if !isUnique c.xpath doc then dedupeGo doc rest seen
    else c :: dedupeGo doc rest (c.xpath :: seen)

def dedupeAndValidate (cands : List Cand) (doc : XElem) : List Cand :=
  dedupeGo doc cands []

/-- Embedding of `countXPathSteps` (source lines 535-537). -/
def countXPathSteps (xp : Str) : Nat :=
  ((splitCh '/' xp).filter (fun s => !s.isEmpty)).length

/-- The sort comparator of `generateXPathInDocument` (source lines 93-98) as
a total preorder: higher score first, then fewer steps, then shorter string. -/
def candLE (a b : Cand) : Bool :=
  if a.score ≠ b.score then decide (b.score < a.score)
  else if countXPathSteps a.xpath ≠ countXPathSteps b.xpath then
    decide (countXPathSteps a.xpath < countXPathSteps b.xpath)
  else decide (a.xpath.length ≤ b.xpath.length)

def CandR (a b : Cand) : Prop := candLE a b = true

instance : DecidableRel CandR := fun a b => instDecidableEqBool (candLE a b) true

/-- The stable sort of the candidate array (JavaScript `Array.prototype.sort`
with a consistent comparator is a stable sort; any stable sort computes the
same list). -/
def sortCands (l : List Cand) : List Cand := l.insertionSort CandR

/-- Embedding of `generateXPathInDocument` (source lines 79-101). -/
def generateXPathInDocument (doc : XElem) (p : List Nat) : Str :=
  let valid := dedupeAndValidate (collectAllCandidates doc p) doc
  match (sortCands valid).head? with
  | some b => b.xpath
  | none => getAbsolutePath doc p

/-! ### Shadow DOM support (source lines 391-428 and 59-77). -/

/-- Embedding of `getShadowSiblingIndex` (source lines 415-428): 1-based
index among same-local-name siblings, with the source's out-of-range
fallback of 1. -/
def getShadowSiblingIndex (forest : List XElem) (p : List Nat) : Nat :=
  match splitLast p with
  | none => 1
  | some (q, i) =>
    let sibs := forestSibs forest q
    let tag := lowStr (forestElemD forest p).tag
    if i < sibs.length then 1 + ((sibs.take i).filter (fun s => lowStr s.tag == tag)).length
    else 1

/-- One `tag[index]` shadow segment (the `localName.toLowerCase()` of the
source — no namespace-safe wildcard here). -/
def shadowStepStr (forest : List XElem) (p : List Nat) : Str :=
  lowStr (forestElemD forest p).tag ++
    '[' :: (natDigits (getShadowSiblingIndex forest p) ++ [']'])

/-- The bottom-up walk of `getShadowAbsolutePath` (source lines 392-413):
`unshift` one `tag[index]` segment per element while climbing towards the
shadow root; the position is consumed from its deep end (reversed). -/
def shadowWalkSegs (forest : List XElem) : List Nat → List Str → List Str
  | [], acc => acc
  | i :: up, acc => shadowWalkSegs forest up (shadowStepStr forest ((i :: up).reverse) :: acc)

/-- The segments of `getShadowAbsolutePath`, top first. -/
def shadowAbsSegs (forest : List XElem) (p : List Nat) : List Str :=
  shadowWalkSegs forest p.reverse []

def getShadowAbsolutePath (forest : List XElem) (p : List Nat) : Str :=
  '/' :: interc (['/']) (shadowAbsSegs forest p)

/-- Location of an element possibly nested in shadow roots: the document
position of the outermost shadow host (or of the element itself when no
shadow boundary encloses it), and one path per crossed shadow root,
outermost first. -/
structure ShadowLoc : Type where
  docPos : List Nat
  chain : List (List Nat)
deriving DecidableEq

/-- The shadow walk of `generateXPath` (source lines 64-73): the `while` loop
visits the shadow roots from the innermost outward and `unshift`s each
`getShadowAbsolutePath`, producing the outermost-first segment list modelled
here by recursion over the outermost-first chain. -/
def shadowSegsAux (host : Option XElem) : List (List Nat) → List Str
  | [] => []
  | p :: rest =>
    match host with
    | none => []
    | some h =>
      match h.shadow with
      | none => []
      | some forest => getShadowAbsolutePath forest p :: shadowSegsAux (forestAt forest p) rest

/-- Embedding of `generateXPath` after input validation (source lines 64-76). -/
def generateXPathLoc (doc : XElem) (loc : ShadowLoc) : Str :=
  let segs := shadowSegsAux (getSubtree doc loc.docPos) loc.chain
  let base := generateXPathInDocument doc loc.docPos
  if segs.isEmpty then base else base ++ '|' :: interc (['|']) segs

/-- A DOM node reference handed to `generateXPath`: its `nodeType` and, for
element nodes, its location. -/
structure DomRef : Type where
  nodeType : Nat
  doc : XElem
  loc : ShadowLoc

/-- The thrown message (source line 61). -/
def invalidMsg : Str := "Invalid input: Input must be a DOM Element.".data

/-- Embedding of the exported `generateXPath` (source lines 59-77); `none`
models a missing (`null`/`undefined`) argument, and a thrown error is the
`Except.error` case. -/
def generateXPathTop : Option DomRef → Except Str Str
  | none => .error invalidMsg
  | some r => if r.nodeType != 1 then .error invalidMsg else .ok (generateXPathLoc r.doc r.loc)

/-! ## Embedding of the selector resolver
(`resolveElementFromStoredSelector` and helpers). -/

/-- Model of `evaluateFirstXPath` (`FIRST_ORDERED_NODE_TYPE`): the first
match of the query against the document, if any, with evaluation failures
caught. -/
def evalFirstXPathDoc (doc : XElem) (xp : Str) : Option (List Nat) :=
  match evalXPathStr xp doc with
  | .ok (p :: _) => some p
  | _ => none

/-- Characters of the resolver's segment regex class `[a-zA-Z0-9_-]`. -/
def segNameCharB (c : Char) : Bool := alnumB c || c == '-' || c == '_'

/-- Embedding of `parseSegment`: regex `^([a-zA-Z0-9_-]+|\*)\[(\d+)\]$` with
the tag lowercased and the index required to be a finite number at least 1. -/
def parseSegRE (seg : Str) : Option (Str × Nat) :=
  let headPart : Option (Str × Str) :=
    match seg with
    | [] => none
    | c :: rest0 =>
      if c == '*' then
        if rest0.isEmpty then none
        else if (rest0.head?).getD ' ' == '[' then some ((['*'] : Str), rest0) else none
      else
        let nm := seg.takeWhile segNameCharB
        if nm.isEmpty then none else some (nm, seg.dropWhile segNameCharB)
  match headPart with
  | none => none
  | some (tg, rest) =>
    match rest with
    | [] => none
    | c1 :: rest1 =>
      if c1 == '[' then
        let ds := rest1.takeWhile digitB
        if ds.isEmpty then none
        else
          match rest1.dropWhile digitB with
          | [] => none
          | c2 :: rest2 =>
            if c2 == ']' && rest2.isEmpty then
              let idx := valDigits ds
              if idx < 1 then none else some (lowStr tg, idx)
            else none
      else none

/-- One step of `resolveInShadowRoot`: filter the scope's children by the
parsed tag (or keep all for `*`) and take the 1-based index. -/
def resolveShadowStep (scopeChildren : List XElem) (tg : Str) (idx : Nat) : Option Nat :=
  let hits := (List.range scopeChildren.length).filter
    (fun i => tg == (['*'] : Str) ||
      lowStr ((scopeChildren[i]?.getD dummyElem).tag) == tg)
  pickNth hits idx

/-- Loop of `resolveInShadowRoot`: walk the parsed segments down from the
shadow root; with no segments the resolver's `current` stays `null`. -/
def risGo (forest : List XElem) : List Str → List Nat → Option (List Nat)
  | [], p => if p.isEmpty then none else some p
  | seg :: rest, p =>
    match parseSegRE seg with
    | none => none
    | some ti =>
      let children := forestSibs forest p
      match resolveShadowStep children ti.1 ti.2 with
      | none => none
      | some i => risGo forest rest (p ++ [i])

/-- Embedding of `resolveInShadowRoot`. -/
def resolveInShadowRoot (forest : List XElem) (path : Str) : Option (List Nat) :=
  risGo forest ((splitCh '/' path).filter (fun s => !s.isEmpty)) []

/-- Model of `evaluateFirstXPathInContext` with a shadow root as context:
the resolver's documented relative form `.//"…` is supported; other shapes
fail like unsupported syntax. -/
def evalFirstInForest (forest : List XElem) (xp : Str) : Option (List Nat) :=
  match xp with
  | [] => none
  | c :: rest =>
    if c == '.' then
      match parseXPathQ rest with
      | some (XQuery.anchored a steps) => (evalAnchoredF forest a steps).head?
      | _ => none
    else none

/-- Loop over the shadow segments of `resolveElementFromStoredSelector`,
building up the resolved location; the final `instanceof HTMLElement` check
is the HTML-namespace test of the model. -/
def resGo (doc : XElem) (docPos : List Nat) :
    XElem → List (List Nat) → List Str → Option ShadowLoc
  | cur, chain, [] => if cur.ns == nsHTML then some ⟨docPos, chain⟩ else none
  | cur, chain, part :: rest =>
    let shadowPath := trimS part
    match cur.shadow with
    | none => none
    | some forest =>
      let found :=
        if isPfx (['/']) shadowPath then resolveInShadowRoot forest shadowPath
        else evalFirstInForest forest shadowPath
      match found with
      | none => none
      | some p => resGo doc docPos (forestElemD forest p) (chain ++ [p]) rest

/-- Embedding of `resolveElementFromStoredSelector`
(src/unnamed/part_006 lines 16-43). -/
def resolveStored (doc : XElem) (sel : Str) : Option ShadowLoc :=
  match splitCh '|' sel with
  | [] => none
  | basePart :: shadowParts =>
    let baseXp := trimS basePart
    if baseXp.isEmpty then none
    else
      match evalFirstXPathDoc doc baseXp with
      | none => none
      | some hostPos => resGo doc hostPos (elemAtD doc hostPos) [] shadowParts

deriving instance DecidableEq for Except

/-! ## The comparator is a total preorder; the sorted head is minimal. -/

theorem candLE_iff (a b : Cand) : candLE a b = true ↔
    (b.score < a.score ∨ (a.score = b.score ∧
      (countXPathSteps a.xpath < countXPathSteps b.xpath ∨
        (countXPathSteps a.xpath = countXPathSteps b.xpath ∧
          a.xpath.length ≤ b.xpath.length)))) := by
  unfold candLE
  by_cases h1 : a.score = b.score <;>
    by_cases h2 : countXPathSteps a.xpath = countXPathSteps b.xpath <;>
      simp [h1, h2] <;> omega

instance : IsTotal Cand CandR :=
  ⟨fun a b => by
    rw [CandR, CandR, candLE_iff, candLE_iff]
    omega⟩

instance : IsTrans Cand CandR :=
  ⟨fun a b c hab hbc => by
    rw [CandR, candLE_iff] at hab hbc ⊢
    omega⟩

theorem candR_refl (a : Cand) : CandR a a := by
  rw [CandR, candLE_iff]
  omega

theorem sortCands_head_min (l : List Cand) (b : Cand)
    (hb : (sortCands l).head? = some b) : b ∈ l ∧ ∀ c ∈ l, CandR b c := by
  have hperm := List.perm_insertionSort CandR l
  have hsorted := List.sorted_insertionSort CandR l
  cases hs : sortCands l with
  | nil => rw [hs] at hb; exact absurd hb (by simp)
  | cons x rest =>
    rw [hs] at hb
    simp only [List.head?_cons, Option.some.injEq] at hb
    rw [sortCands] at hs
    rw [hb] at hs
    constructor
    · have hmem : b ∈ List.insertionSort CandR l := by rw [hs]; simp
      exact hperm.mem_iff.mp hmem
    · intro c hc
      have hc2 : c ∈ b :: rest := by
        rw [← hs]
        exact hperm.mem_iff.mpr hc
      rcases List.mem_cons.mp hc2 with h | h
      · rw [h]
        exact candR_refl b
      · exact List.rel_of_sorted_cons (hs ▸ hsorted) c h

/-- Every survivor of the dedupe/validate loop passed `isUnique`. -/
theorem mem_dedupeGo_isUnique (doc : XElem) (cands : List Cand) :
    ∀ (seen : List Str) (c : Cand), c ∈ dedupeGo doc cands seen →
      isUnique c.xpath doc = true := by
  induction cands with
  | nil => intro seen c hc; simp [dedupeGo] at hc
  | cons x rest ih =>
    intro seen c hc
    rw [dedupeGo] at hc
    by_cases h1 : (x.xpath.isEmpty || seen.contains x.xpath) = true
    · rw [if_pos h1] at hc
      exact ih seen c hc
    · rw [if_neg h1] at hc
      by_cases h2 : (!isUnique x.xpath doc) = true
      · rw [if_pos h2] at hc
        exact ih seen c hc
      · rw [if_neg h2] at hc
        rcases List.mem_cons.mp hc with h | h
        · subst h; simpa using h2
        · exact ih _ c h

theorem isUnique_eval (xp : Str) (doc : XElem) (h : isUnique xp doc = true) :
    ∃ l, evalXPathStr xp doc = .ok l ∧ l.length = 1 := by
  rw [isUnique] at h
  cases heval : evalXPathStr xp doc with
  | error e => rw [heval] at h; exact absurd h (by simp)
  | ok l =>
    rw [heval] at h
    exact ⟨l, rfl, by simpa using h⟩

/-! ## Claim theorems. -/

/-- Claim C6, counterexample: `isStableId` rejects the empty identifier even
though the empty identifier matches none of the five rejection shapes listed
by the claim, so the claimed "if and only if" characterization fails at the
empty string. -/
theorem c6_stable_id_counterexample :
    isStableId [] = false ∧ ¬ RejectSpec [] := by
  refine ⟨by decide, ?_⟩
  intro h
  rcases h with h | h | h | h | h
  · rcases h with ⟨hlen, _⟩
    simp at hlen
  · rcases h with ⟨a, t1, t2, b, hs, _⟩
    exact absurd hs.symm (by simp)
  · rcases h with ⟨a, d, hs, hlen, _⟩
    rcases List.nil_eq_append_iff.mp hs with ⟨_, hd⟩
    subst hd
    simp at hlen
  · rcases h with ⟨t, ht⟩ | ⟨t, ht⟩ | ⟨t, ht⟩ <;> exact absurd ht.symm (by simp)
  · rcases h with ⟨a, d, hs, _⟩
    exact absurd hs.symm (by simp)

/-- Claim C6, amended: for every identifier, `isStableId` rejects it exactly
when it is empty, or is a whole-string hex/dash run of 10 or more characters
(UUID/hash-shaped), or contains an underscore-delimited run of two
alphanumeric tokens bounded by underscores, or ends in 5 or more digits, or
starts with one of the framework prefixes `ember`, `react-`, `vue-`
(optionally followed by digits, which adds no constraint), or ends in an
underscore plus 1-4 digits; every other identifier passes. -/
theorem c6_stable_id_characterization (s : Str) :
    isStableId s = false ↔ (s = [] ∨ RejectSpec s) := by
  by_cases h : s = []
  · subst h
    simp [isStableId, c6_stable_id_counterexample.2]
  · rw [isStableId_false_iff s h]
    simp [h]

/-- Claim C7, counterexample: an element in a non-default namespace that is
not the SVG namespace (here MathML) receives the plain lowercased tag as its
node test, not the namespace-agnostic wildcard test the claim promises for
every non-default namespace. -/
theorem c7_node_test_counterexample :
    getNodeTest (XElem.mk ( "math".data) ( "http://www.w3.org/1998/Math/MathML".data)
        [] [] [] none) = "math".data ∧
    "math".data ≠ '*' :: '[' :: ( "local-name()=".data) ++ sq :: ( "math".data ++ [sq, ']']) := by
  constructor
  · decide
  · decide

/-- Claim C7, amended: `getNodeTest` returns the namespace-agnostic wildcard
test `*[local-name()='tag']` exactly for elements in the SVG namespace; every
other element — in the default (HTML) namespace or in any other namespace —
receives the lowercase tag name. -/
theorem c7_node_test_resolution (e : XElem) :
    (e.ns = nsSVG →
      getNodeTest e = '*' :: '[' :: ( "local-name()=".data) ++ sq :: (lowStr e.tag ++ [sq, ']'])) ∧
    (e.ns ≠ nsSVG → getNodeTest e = lowStr e.tag) := by
  constructor
  · intro h
    simp [getNodeTest, h]
  · intro h
    simp only [getNodeTest]
    rw [if_neg]
    simpa using h

/-- Claim C7 witness. -/
theorem c7_node_test_resolution_witness :
    getNodeTest (XElem.mk ( "DIV".data) nsHTML [] [] [] none) = "div".data ∧
    getNodeTest (XElem.mk ( "svg".data) nsSVG [] [] [] none) =
      '*' :: '[' :: ( "local-name()=".data) ++ sq :: ( "svg".data ++ [sq, ']']) := by
  constructor
  · exact (c7_node_test_resolution _).2 (by decide)
  · exact (c7_node_test_resolution _).1 rfl

/-- Claim C9: `generateXPath` fails (with the invalid-input error) exactly
when its argument is absent or is not an element node (`nodeType ≠ 1`), and
for every element argument it returns a string without failing. -/
theorem c9_input_validation (inp : Option DomRef) :
    ((∃ msg, generateXPathTop inp = .error msg) ↔
      (inp = none ∨ ∃ r, inp = some r ∧ r.nodeType ≠ 1)) ∧
    (∀ r, inp = some r → r.nodeType = 1 →
      generateXPathTop inp = .ok (generateXPathLoc r.doc r.loc)) := by
  constructor
  · constructor
    · rintro ⟨msg, hmsg⟩
      cases inp with
      | none => exact Or.inl rfl
      | some r =>
        right
        refine ⟨r, rfl, ?_⟩
        intro h1
        rw [generateXPathTop] at hmsg
        simp [h1] at hmsg
    · rintro (h | ⟨r, hr, h1⟩)
      · subst h
        exact ⟨invalidMsg, rfl⟩
      · subst hr
        refine ⟨invalidMsg, ?_⟩
        rw [generateXPathTop]
        simp only [ne_eq] at h1
        simp [h1]
  · intro r hr h1
    subst hr
    rw [generateXPathTop]
    simp [h1]

/-- Claim C9 witness: a concrete element input succeeds, and the failure
characterization holds at a concrete non-element input. -/
theorem c9_input_validation_witness :
    generateXPathTop (some ⟨1, XElem.mk ( "HTML".data) nsHTML [] [] [] none, ⟨[], []⟩⟩) =
      .ok (generateXPathLoc (XElem.mk ( "HTML".data) nsHTML [] [] [] none) ⟨[], []⟩) ∧
    (∃ msg, generateXPathTop (some ⟨3, XElem.mk ( "HTML".data) nsHTML [] [] [] none, ⟨[], []⟩⟩) =
      .error msg) := by
  constructor
  · exact (c9_input_validation _).2 _ rfl rfl
  · exact (c9_input_validation _).1.mpr (Or.inr ⟨_, rfl, by decide⟩)

/-- Concrete three-element document `html > body > div#a|b` used by several
witnesses and by the round-trip failing input: the div's id passes the
stability rules and is document-unique. -/
def docW : XElem :=
  XElem.mk ( "HTML".data) nsHTML [] [] [
    XElem.mk ( "BODY".data) nsHTML [] [] [
      XElem.mk ( "DIV".data) nsHTML [( "id".data, "a|b".data)] [] [] none] none] none

/-- Claim C2: every candidate that survives the dedupe/validate pass
evaluates, in the document scope it was validated against, to exactly one
node (never zero, never more than one); consequently the candidate the
ranker selects (the head of the sorted validated list) also resolves to
exactly one node in that scope. -/
theorem c2_uniqueness_invariant :
    (∀ (cands : List Cand) (doc : XElem) (c : Cand), c ∈ dedupeAndValidate cands doc →
      ∃ l, evalXPathStr c.xpath doc = .ok l ∧ l.length = 1) ∧
    (∀ (cands : List Cand) (doc : XElem) (b : Cand),
      (sortCands (dedupeAndValidate cands doc)).head? = some b →
      ∃ l, evalXPathStr b.xpath doc = .ok l ∧ l.length = 1) := by
  have main : ∀ (cands : List Cand) (doc : XElem) (c : Cand),
      c ∈ dedupeAndValidate cands doc →
      ∃ l, evalXPathStr c.xpath doc = .ok l ∧ l.length = 1 := by
    intro cands doc c hc
    exact isUnique_eval _ _ (mem_dedupeGo_isUnique doc cands [] c hc)
  refine ⟨main, ?_⟩
  intro cands doc b hb
  exact main cands doc b (sortCands_head_min _ _ hb).1

/-- Claim C2 witness: a concrete validated candidate resolves to exactly one
node. -/
theorem c2_uniqueness_invariant_witness :
    ∃ l, evalXPathStr ( "//body".data) docW = .ok l ∧ l.length = 1 :=
  c2_uniqueness_invariant.1 [⟨ "//body".data, 90⟩] docW ⟨ "//body".data, 90⟩ (by decide)

/-- Claim C5: when the validated candidate list is nonempty, the selector
returned by `generateXPathInDocument` is the selected candidate `b`, a member
of the validated list that has maximal score; among equal scores it has the
fewest `/`-delimited non-empty path steps, and among equal score and steps it
has the shortest string length. -/
theorem c5_ranking_order (doc : XElem) (p : List Nat) (b : Cand)
    (hb : (sortCands (dedupeAndValidate (collectAllCandidates doc p) doc)).head? = some b) :
    b ∈ dedupeAndValidate (collectAllCandidates doc p) doc ∧
    generateXPathInDocument doc p = b.xpath ∧
    ∀ c ∈ dedupeAndValidate (collectAllCandidates doc p) doc,
      c.score ≤ b.score ∧
      (b.score = c.score → countXPathSteps b.xpath ≤ countXPathSteps c.xpath) ∧
      (b.score = c.score → countXPathSteps b.xpath = countXPathSteps c.xpath →
        b.xpath.length ≤ c.xpath.length) := by
  obtain ⟨hmem, hmin⟩ := sortCands_head_min _ _ hb
  refine ⟨hmem, ?_, ?_⟩
  · rw [generateXPathInDocument]
    simp only [hb]
  · intro c hc
    have h := hmin c hc
    rw [CandR, candLE_iff] at h
    omega

/-- Claim C5 witness: on the concrete document the id candidate (score 100)
wins, beating the attribute (80), ancestor (70) and absolute (0) candidates. -/
theorem c5_ranking_order_witness :
    ⟨idSel ( "a|b".data), 100⟩ ∈
      dedupeAndValidate (collectAllCandidates docW [0, 0]) docW ∧
    generateXPathInDocument docW [0, 0] = idSel ( "a|b".data) := by
  have h := c5_ranking_order docW [0, 0] ⟨idSel ( "a|b".data), 100⟩ (by decide)
  exact ⟨h.1, h.2.1⟩

/-- Claim C1, failing input: for the document `html > body > div` whose div
has the stable, document-unique id `a|b`, the generator returns
`//*[@id='a|b']` (the winning score-100 candidate), but the resolver splits
the stored selector at every `|`, treats `b']` as a shadow segment and
evaluates the malformed first segment `//*[@id='a`, so resolution returns
null instead of the element — `resolve(generate(e)) ≠ e`. -/
theorem c1_roundtrip_bug :
    generateXPathTop (some ⟨1, docW, ⟨[0, 0], []⟩⟩) = .ok (idSel ( "a|b".data)) ∧
    (getSubtree docW [0, 0]).isSome ∧
    resolveStored docW (idSel ( "a|b".data)) = none := by
  refine ⟨by decide, by decide, by decide⟩

/-! ## Fueled variants of the three loops, for the termination claim: each
`while` loop of the source reaches its exit within the stated fuel. -/

/-- The shadow walk with an iteration budget: each iteration consumes one
enclosing shadow root. -/
def shadowSegsAuxF : Nat → Option XElem → List (List Nat) → Option (List Str)
  | _, _, [] => some []
  | 0, _, _ :: _ => none
  | fuel + 1, host, p :: rest =>
    match host with
    | none => some []
    | some h =>
      match h.shadow with
      | none => some []
      | some forest =>
        (shadowSegsAuxF fuel (forestAt forest p) rest).map
          (fun segs => getShadowAbsolutePath forest p :: segs)

/-- The absolute-path parent-chain walk with an iteration budget. -/
def absWalkF : Nat → XElem → List Nat → List Str → Option (List Str)
  | 0, _, _, _ => none
  | _ + 1, doc, [], acc => some (stepStr doc [] :: acc)
  | fuel + 1, doc, i :: up, acc => absWalkF fuel doc up (stepStr doc ((i :: up).reverse) :: acc)

/-- The ancestor walk with an iteration budget. -/
def ancWalkF : Nat → XElem → List Nat → List Str → Nat → Option (List Str)
  | _, _, [], _, _ => some []
  | 0, _, _ :: _, _, _ => none
  | fuel + 1, doc, i :: up, segs, depth =>
    if MAX_ANCESTOR_DEPTH ≤ depth then some []
    else
      let p := (i :: up).reverse
      let parent := up.reverse
      let segs2 := stepStr doc p :: segs
      let rel := interc (['/']) segs2
      let here := (getAnchorXPaths doc parent).map (fun a => a ++ '/' :: rel)
      if (elemAtD doc parent).tag == "BODY".data then some here
      else (ancWalkF fuel doc up segs2 (depth + 1)).map (fun t => here ++ t)

/-- Claim C10: each loop of the generator terminates within its bound —
the shadow walk within the shadow-nesting depth (one enclosing shadow root
consumed per iteration), the absolute-path walk within the length of the
parent chain plus one, and the ancestor walk within the depth cap of 50
(also exiting early at the body or the root): with that much fuel the fueled
loop completes and computes exactly what the unfueled embedding computes. -/
theorem c10_termination :
    (∀ (host : Option XElem) (chain : List (List Nat)) (fuel : Nat),
      chain.length ≤ fuel →
      shadowSegsAuxF fuel host chain = some (shadowSegsAux host chain)) ∧
    (∀ (doc : XElem) (rp : List Nat) (acc : List Str) (fuel : Nat), rp.length < fuel →
      absWalkF fuel doc rp acc = some (absWalk doc rp acc)) ∧
    (∀ (doc : XElem) (rp : List Nat) (segs : List Str) (depth fuel : Nat),
      MAX_ANCESTOR_DEPTH - depth < fuel →
      ancWalkF fuel doc rp segs depth = some (ancWalk doc rp segs depth)) := by
  refine ⟨?_, ?_, ?_⟩
  · intro host chain
    induction chain generalizing host with
    | nil => intro fuel _; cases fuel <;> rfl
    | cons p rest ih =>
      intro fuel hf
      cases fuel with
      | zero => simp at hf
      | succ f =>
        cases host with
        | none => simp [shadowSegsAuxF, shadowSegsAux]
        | some h =>
          cases hsh : h.shadow with
          | none => simp [shadowSegsAuxF, shadowSegsAux, hsh]
          | some forest =>
            simp only [shadowSegsAuxF, shadowSegsAux, hsh]
            rw [ih (forestAt forest p) f (by simpa using hf)]
            rfl
  · intro doc rp
    induction rp with
    | nil =>
      intro acc fuel hf
      cases fuel with
      | zero => simp at hf
      | succ f => rfl
    | cons i up ih =>
      intro acc fuel hf
      cases fuel with
      | zero => simp at hf
      | succ f =>
        rw [absWalkF, absWalk]
        exact ih _ f (by simp at hf; omega)
  · intro doc rp
    induction rp with
    | nil =>
      intro segs depth fuel hf
      cases fuel <;> rfl
    | cons i up ih =>
      intro segs depth fuel hf
      cases fuel with
      | zero => omega
      | succ f =>
        rw [ancWalkF, ancWalk]
        by_cases hd : MAX_ANCESTOR_DEPTH ≤ depth
        · simp [hd]
        · simp only [hd, if_false]
          by_cases hb : ((elemAtD doc up.reverse).tag == "BODY".data) = true
          · simp [hb]
          · simp only [Bool.not_eq_true] at hb
            simp only [hb, Bool.false_eq_true, if_false]
            rw [ih _ (depth + 1) f (by unfold MAX_ANCESTOR_DEPTH at *; omega)]
            rfl

/-- Claim C10 witness: concrete runs of the three fueled loops at their
bounds. -/
theorem c10_termination_witness :
    shadowSegsAuxF 1 (getSubtree docW []) [] = some (shadowSegsAux (getSubtree docW []) []) ∧
    absWalkF 3 docW [0, 0].reverse [] = some (absWalk docW [0, 0].reverse []) ∧
    ancWalkF 51 docW [0, 0].reverse [] 0 = some (ancWalk docW [0, 0].reverse [] 0) :=
  ⟨c10_termination.1 _ _ 1 (by decide),
   c10_termination.2.1 _ _ _ 3 (by decide),
   c10_termination.2.2 _ _ _ 0 51 (by decide)⟩

/-! ## Shadow-segment machinery for C3: the source's bottom-up `unshift` walk
equals a top-down map over the nonempty prefixes of the hop path. -/

theorem splitLast_append (q : List Nat) (i : Nat) : splitLast (q ++ [i]) = some (q, i) := by
  induction q with
  | nil => rfl
  | cons x rest ih =>
    cases rest with
    | nil => rfl
    | cons y rest2 =>
      simp only [List.cons_append, splitLast, List.append_eq]
      simp only [List.cons_append] at ih
      rw [ih]
      rfl

theorem shadowWalkSegs_acc (forest : List XElem) (rp : List Nat) (acc : List Str) :
    shadowWalkSegs forest rp acc = shadowWalkSegs forest rp [] ++ acc := by
  induction rp generalizing acc with
  | nil => simp [shadowWalkSegs]
  | cons i up ih =>
    rw [shadowWalkSegs, ih]
    conv_rhs => rw [shadowWalkSegs, ih]
    simp

theorem shadowAbsSegs_snoc (forest : List XElem) (q : List Nat) (i : Nat) :
    shadowAbsSegs forest (q ++ [i]) =
      shadowAbsSegs forest q ++ [shadowStepStr forest (q ++ [i])] := by
  rw [shadowAbsSegs, shadowAbsSegs]
  rw [List.reverse_append]
  simp only [List.reverse_cons, List.reverse_nil, List.nil_append, List.singleton_append]
  rw [shadowWalkSegs, shadowWalkSegs_acc]
  simp

/-- Spec-side 1-based index among same-local-name preceding siblings. -/
def specShadowIdx (sibs : List XElem) (i : Nat) (tag : Str) : Nat :=
  1 + ((sibs.take i).filter (fun s => lowStr s.tag == tag)).length

/-- Spec-side shadow step for the child at index `i` below prefix `q`:
lowercased local name with the 1-based same-local-name index. -/
def specShadowStep (forest : List XElem) (q : List Nat) (i : Nat) : Str :=
  let tag := lowStr (forestElemD forest (q ++ [i])).tag
  tag ++ '[' :: (natDigits (specShadowIdx (forestSibs forest q) i tag) ++ [']'])

/-- Spec-side segment list: one step per nonempty prefix of the hop path,
outermost ancestor first. -/
def shadowSpecSegs (forest : List XElem) : List Nat → List Nat → List Str
  | _, [] => []
  | q, i :: rest => specShadowStep forest q i :: shadowSpecSegs forest (q ++ [i]) rest

/-- In-range validity of a hop path below a prefix. -/
def pathWFF (forest : List XElem) : List Nat → List Nat → Bool
  | _, [] => true
  | q, i :: rest => decide (i < (forestSibs forest q).length) && pathWFF forest (q ++ [i]) rest

theorem shadowStepStr_spec (forest : List XElem) (q : List Nat) (i : Nat)
    (h : i < (forestSibs forest q).length) :
    shadowStepStr forest (q ++ [i]) = specShadowStep forest q i := by
  rw [shadowStepStr, specShadowStep, getShadowSiblingIndex, splitLast_append]
  simp only [h, if_true, specShadowIdx]

theorem shadowAbsSegs_eq_spec (forest : List XElem) :
    ∀ (rem q : List Nat), pathWFF forest q rem = true →
      shadowAbsSegs forest (q ++ rem) =
        shadowAbsSegs forest q ++ shadowSpecSegs forest q rem := by
  intro rem
  induction rem with
  | nil => intro q _; simp [shadowSpecSegs]
  | cons i rest ih =>
    intro q hwf
    rw [pathWFF, Bool.and_eq_true] at hwf
    obtain ⟨h1, h2⟩ := hwf
    have e1 : q ++ i :: rest = (q ++ [i]) ++ rest := by simp
    rw [e1, ih (q ++ [i]) h2, shadowAbsSegs_snoc, shadowSpecSegs,
      shadowStepStr_spec forest q i (by simpa using h1)]
    simp

/-- Spec-side rendering of one shadow segment: `/step/step/…` over the
nonempty prefixes of the hop path. -/
def shadowSegSpec (forest : List XElem) (p : List Nat) : Str :=
  '/' :: interc (['/']) (shadowSpecSegs forest [] p)

theorem getShadowAbsolutePath_spec (forest : List XElem) (p : List Nat)
    (h : pathWFF forest [] p = true) :
    getShadowAbsolutePath forest p = shadowSegSpec forest p := by
  rw [getShadowAbsolutePath, shadowSegSpec]
  have := shadowAbsSegs_eq_spec forest p [] h
  simp only [List.nil_append] at this
  rw [this]
  rfl

/-- The scope (shadow forest) and hop path of every crossed shadow root,
outermost first. -/
def hopScopes (host : Option XElem) : List (List Nat) → List (List XElem × List Nat)
  | [] => []
  | p :: rest =>
    match host with
    | none => []
    | some h =>
      match h.shadow with
      | none => []
      | some forest => (forest, p) :: hopScopes (forestAt forest p) rest

/-- Well-formedness of a shadow location: every hop host exposes a shadow
root and every hop path is nonempty and in range. -/
def chainWF (host : Option XElem) : List (List Nat) → Bool
  | [] => true
  | p :: rest =>
    match host with
    | none => false
    | some h =>
      match h.shadow with
      | none => false
      | some forest => !p.isEmpty && pathWFF forest [] p && chainWF (forestAt forest p) rest

theorem shadowSegsAux_spec (chain : List (List Nat)) :
    ∀ host, chainWF host chain = true →
      shadowSegsAux host chain =
        (hopScopes host chain).map (fun fp => shadowSegSpec fp.1 fp.2) ∧
      (hopScopes host chain).length = chain.length := by
  induction chain with
  | nil => intro host _; exact ⟨rfl, rfl⟩
  | cons p rest ih =>
    intro host hwf
    cases host with
    | none => rw [chainWF] at hwf; exact absurd hwf (by simp)
    | some h =>
      rw [chainWF] at hwf
      cases hsh : h.shadow with
      | none => rw [hsh] at hwf; exact absurd hwf (by simp)
      | some forest =>
        rw [hsh] at hwf
        simp only [Bool.and_eq_true] at hwf
        obtain ⟨⟨_, hpath⟩, hrest⟩ := hwf
        obtain ⟨ihseg, ihlen⟩ := ih (forestAt forest p) hrest
        constructor
        · rw [shadowSegsAux, hopScopes, hsh]
          simp only [List.map_cons]
          rw [ihseg, getShadowAbsolutePath_spec forest p hpath]
        · rw [hopScopes, hsh]
          simp only [List.length_cons]
          rw [ihlen]

/-- Claim C3: for a target nested inside `n ≥ 1` shadow roots (a well-formed
location), `generateXPath` returns the document-level selector of the
outermost shadow host followed by exactly `n` shadow segments joined with
`|`, ordered outermost-to-innermost, where each segment is the absolute path
`/tag[i]/…` whose steps cover every ancestor below (and excluding) that
shadow root, using the lowercased local name and the 1-based index among
same-local-name siblings. -/
theorem c3_shadow_compound (doc : XElem) (loc : ShadowLoc)
    (hch : loc.chain ≠ [])
    (hwf : chainWF (getSubtree doc loc.docPos) loc.chain = true) :
    generateXPathLoc doc loc =
      generateXPathInDocument doc loc.docPos ++ '|' ::
        interc (['|']) ((hopScopes (getSubtree doc loc.docPos) loc.chain).map
          (fun fp => shadowSegSpec fp.1 fp.2)) ∧
    (hopScopes (getSubtree doc loc.docPos) loc.chain).length = loc.chain.length := by
  obtain ⟨hseg, hlen⟩ := shadowSegsAux_spec loc.chain (getSubtree doc loc.docPos) hwf
  refine ⟨?_, hlen⟩
  rw [generateXPathLoc]
  have hne : (shadowSegsAux (getSubtree doc loc.docPos) loc.chain).isEmpty = false := by
    rw [hseg, List.isEmpty_eq_false]
    intro hmap
    rw [List.map_eq_nil] at hmap
    have h0 := hlen
    rw [hmap] at h0
    exact hch (List.eq_nil_of_length_eq_zero h0.symm)
  simp only [hne, Bool.false_eq_true, if_false]
  rw [hseg]

/-- Concrete shadow document for the C3 witness: `html > body > x-host`, the
host holding a shadow root with `div > button`. -/
def docS : XElem :=
  XElem.mk ( "HTML".data) nsHTML [] [] [
    XElem.mk ( "BODY".data) nsHTML [] [] [
      XElem.mk ( "X-HOST".data) nsHTML [] [] []
        (some [XElem.mk ( "DIV".data) nsHTML [] [] [
          XElem.mk ( "BUTTON".data) nsHTML [] [] [] none] none])] none] none

/-- Claim C3 witness: the button nested one shadow root deep gets the host's
document selector plus exactly one `/div[1]/button[1]` segment. -/
theorem c3_shadow_compound_witness :
    generateXPathLoc docS ⟨[0, 0], [[0, 0]]⟩ =
      generateXPathInDocument docS [0, 0] ++ '|' ::
        interc (['|']) ((hopScopes (getSubtree docS [0, 0]) [[0, 0]]).map
          (fun fp => shadowSegSpec fp.1 fp.2)) ∧
    (hopScopes (getSubtree docS [0, 0]) [[0, 0]]).length = 1 :=
  c3_shadow_compound docS ⟨[0, 0], [[0, 0]]⟩ (by decide) (by decide)

/-! ## C4 machinery, stage 1: document well-formedness and the absolute-path
segment list. -/

/-- The element's lowercased tag is a nonempty name over the parser's name
characters (true of every tag the DOM can produce). -/
def tagOkB (s : Str) : Bool := !(lowStr s).isEmpty && (lowStr s).all nameCharB

/-- No two sibling tags differ only in letter case (true of DOM-canonical
tag names). -/
def sibConsist (children : List XElem) : Bool :=
  children.all (fun a => children.all (fun b =>
    !(lowStr a.tag == lowStr b.tag) || (a.tag == b.tag)))

mutual

/-- Well-formedness for the absolute-path theorem: every element is in the
default HTML namespace, has a DOM-canonical name, and siblings are
case-consistent. -/
def wfTree : XElem → Bool
  | .mk tag ns _ _ children _ =>
    (ns == nsHTML) && tagOkB tag && sibConsist children && wfForest children

def wfForest : List XElem → Bool
  | [] => true
  | c :: cs => wfTree c && wfForest cs

end

theorem wfTree_def (e : XElem) : wfTree e =
    ((e.ns == nsHTML) && tagOkB e.tag && sibConsist e.children && wfForest e.children) := by
  cases e
  rfl

theorem wfForest_at (cs : List XElem) (h : wfForest cs = true) :
    ∀ (i : Nat) (c : XElem), cs[i]? = some c → wfTree c = true := by
  induction cs with
  | nil => intro i c hc; simp at hc
  | cons x rest ih =>
    rw [wfForest, Bool.and_eq_true] at h
    intro i c hc
    cases i with
    | zero =>
      simp only [List.getElem?_cons_zero, Option.some.injEq] at hc
      rw [← hc]
      exact h.1
    | succ j => exact ih h.2 j c (by simpa using hc)

theorem wfTree_at : ∀ (p : List Nat) (doc : XElem), wfTree doc = true →
    ∀ e, getSubtree doc p = some e → wfTree e = true := by
  intro p
  induction p with
  | nil =>
    intro doc h e he
    rw [getSubtree] at he
    injection he with he
    rw [← he]
    exact h
  | cons i rest ih =>
    intro doc h e he
    rw [getSubtree] at he
    cases hc : doc.children[i]? with
    | none => rw [hc] at he; exact absurd he (by simp)
    | some c =>
      rw [hc] at he
      have hdoc := wfTree_def doc
      rw [h] at hdoc
      have hforest : wfForest doc.children = true := by
        have := hdoc.symm
        simp only [Bool.and_eq_true] at this
        exact this.2
      exact ih c (wfForest_at doc.children hforest i c hc) e he

theorem getSubtree_append (q : List Nat) : ∀ (e : XElem) (r : List Nat),
    getSubtree e (q ++ r) = (getSubtree e q).bind (fun x => getSubtree x r) := by
  induction q with
  | nil => intro e r; rfl
  | cons i rest ih =>
    intro e r
    rw [List.cons_append]
    cases hc : e.children[i]? with
    | none => simp [getSubtree, hc]
    | some c => simp [getSubtree, hc, ih c r]

theorem elemAtD_of_some (doc : XElem) (p : List Nat) (e : XElem)
    (hp : getSubtree doc p = some e) : elemAtD doc p = e := by
  rw [elemAtD, hp]
  rfl

theorem getSubtree_singleton (x : XElem) (j : Nat) :
    getSubtree x [j] = x.children[j]? := by
  cases hc : x.children[j]? with
  | none => simp [getSubtree, hc]
  | some c => simp [getSubtree, hc]

theorem elemAtD_child (doc : XElem) (q : List Nat) (x : XElem)
    (hq : getSubtree doc q = some x) (j : Nat) :
    elemAtD doc (q ++ [j]) = x.children[j]?.getD dummyElem := by
  rw [elemAtD, getSubtree_append, hq, Option.some_bind, getSubtree_singleton]

theorem absWalk_acc (doc : XElem) (rp : List Nat) (acc : List Str) :
    absWalk doc rp acc = absWalk doc rp [] ++ acc := by
  induction rp generalizing acc with
  | nil => simp [absWalk]
  | cons i up ih =>
    rw [absWalk, ih]
    conv_rhs => rw [absWalk, ih]
    simp

theorem absSegs_snoc (doc : XElem) (q : List Nat) (i : Nat) :
    absSegs doc (q ++ [i]) = absSegs doc q ++ [stepStr doc (q ++ [i])] := by
  rw [absSegs, absSegs]
  rw [List.reverse_append]
  simp only [List.reverse_cons, List.reverse_nil, List.nil_append, List.singleton_append]
  rw [absWalk, absWalk_acc]
  simp

/-- Spec-side descendant steps of the absolute path: one `nodeTest[index]`
per nonempty prefix of the position, top-down. -/
def absStepsSpec (doc : XElem) : List Nat → List Nat → List Str
  | _, [] => []
  | q, i :: rest => stepStr doc (q ++ [i]) :: absStepsSpec doc (q ++ [i]) rest

theorem absSegs_eq_spec (doc : XElem) :
    ∀ (rem q : List Nat), absSegs doc (q ++ rem) = absSegs doc q ++ absStepsSpec doc q rem := by
  intro rem
  induction rem with
  | nil => intro q; simp [absStepsSpec]
  | cons i rest ih =>
    intro q
    have e1 : q ++ i :: rest = (q ++ [i]) ++ rest := by simp
    rw [e1, ih (q ++ [i]), absSegs_snoc, absStepsSpec]
    simp

theorem absSegs_cons_spec (doc : XElem) (p : List Nat) :
    absSegs doc p = stepStr doc [] :: absStepsSpec doc [] p := by
  have := absSegs_eq_spec doc p []
  simp only [List.nil_append] at this
  rw [this]
  rfl

/-! ## C4 machinery, stage 2: the rendered absolute path parses back to the
intended structured query. -/

theorem nameCharB_ne (c : Char) (h : nameCharB c = true) :
    c ≠ '*' ∧ c ≠ '/' ∧ c ≠ ':' ∧ c ≠ '[' ∧ c ≠ ']' := by
  refine ⟨?_, ?_, ?_, ?_, ?_⟩ <;> rintro rfl <;> exact absurd h (by decide)

theorem digitB_ne (c : Char) (h : digitB c = true) :
    c ≠ '/' ∧ c ≠ ':' ∧ c ≠ ']' := by
  refine ⟨?_, ?_, ?_⟩ <;> rintro rfl <;> exact absurd h (by decide)

theorem splitByP_no_sep (p : Char → Bool) (x : Str) (h : ∀ c ∈ x, p c = false) :
    splitByP p x = [x] := by
  induction x with
  | nil => rfl
  | cons c rest ih =>
    have hc : p c = false := h c (by simp)
    have hrec := ih (fun d hd => h d (by simp [hd]))
    rw [splitByP, if_neg (by simp [hc]), hrec]

theorem splitByP_sep_append (p : Char → Bool) (x rest : Str) (c0 : Char)
    (hx : ∀ c ∈ x, p c = false) (hc : p c0 = true) :
    splitByP p (x ++ c0 :: rest) = x :: splitByP p rest := by
  induction x with
  | nil =>
    rw [List.nil_append, splitByP, if_pos (by simp [hc])]
  | cons c xs ih =>
    have hcx : p c = false := hx c (by simp)
    have hrec := ih (fun d hd => hx d (by simp [hd]))
    rw [List.cons_append, splitByP, if_neg (by simp [hcx]), hrec]

theorem splitCh_interc (sep : Char) (segs : List Str)
    (h : ∀ s ∈ segs, ∀ c ∈ s, (c == sep) = false) (hne : segs ≠ []) :
    splitCh sep (interc ([sep]) segs) = segs := by
  induction segs with
  | nil => exact absurd rfl hne
  | cons x rest ih =>
    cases rest with
    | nil =>
      rw [interc, splitCh]
      exact splitByP_no_sep _ x (h x (by simp))
    | cons y ys =>
      rw [interc, splitCh]
      have e1 : x ++ [sep] ++ interc ([sep]) (y :: ys) = x ++ sep :: interc ([sep]) (y :: ys) := by
        simp
      rw [e1, splitByP_sep_append _ x _ sep (h x (by simp)) (by simp)]
      have hrec := ih (fun s hs c hc => h s (by simp [hs]) c hc) (by simp)
      rw [splitCh] at hrec
      rw [hrec]

theorem splitAxis_none (s : Str) (h : ∀ c ∈ s, (c == ':') = false) : splitAxis s = none := by
  induction s with
  | nil => rfl
  | cons c rest ih =>
    cases rest with
    | nil => rfl
    | cons c2 rest2 =>
      rw [splitAxis, if_neg (by simp [h c (by simp)]),
        ih (fun d hd => h d (by simp [hd]))]
      rfl

theorem parseOneStep_render (nm : Str) (k : Nat)
    (hnm : nm ≠ []) (hchars : ∀ c ∈ nm, nameCharB c = true) (hk : 1 ≤ k) :
    parseOneStep (nm ++ '[' :: (natDigits k ++ [']'])) =
      some ⟨XAxis.childA, NTest.tagT nm, k⟩ := by
  have hnocolon : ∀ c ∈ nm ++ '[' :: (natDigits k ++ [']']), (c == ':') = false := by
    intro c hc
    rcases List.mem_append.mp hc with h | h
    · simp [(nameCharB_ne c (hchars c h)).2.2.1]
    · rcases List.mem_cons.mp h with h | h
      · rw [h]; decide
      · rcases List.mem_append.mp h with h | h
        · simp [(digitB_ne c (natDigits_all_digit k c h)).2.1]
        · simp only [List.mem_singleton] at h
          rw [h]; decide
  rw [parseOneStep, splitAxis_none _ hnocolon, parseStepBody]
  cases hn : nm with
  | nil => exact absurd hn hnm
  | cons c0 nmrest =>
    rw [← hn]
    have hc0 : nameCharB c0 = true := hchars c0 (by rw [hn]; simp)
    have hstar : (c0 == '*') = false := by simp [(nameCharB_ne c0 hc0).1]
    have hlb : nameCharB '[' = false := by decide
    have htw : (nm ++ '[' :: (natDigits k ++ [']'])).takeWhile nameCharB = nm := by
      rw [takeWhile_app_all _ _ _ hchars]
      simp [List.takeWhile_cons, hlb]
    have hdw : (nm ++ '[' :: (natDigits k ++ [']'])).dropWhile nameCharB =
        '[' :: (natDigits k ++ [']']) := by
      rw [dropWhile_app_all _ _ _ hchars]
      simp [List.dropWhile_cons, hlb]
    have hpnt : parseNodeTest (nm ++ '[' :: (natDigits k ++ [']'])) =
        some (NTest.tagT nm, '[' :: (natDigits k ++ [']'])) := by
      rw [parseNodeTest.eq_def]
      rw [hn]
      simp only [List.cons_append]
      rw [if_neg (by simp [hstar])]
      rw [← List.cons_append, ← hn, htw, hdw]
      rw [if_neg (by simp [hnm])]
    rw [hpnt]
    have hrb : digitB ']' = false := by decide
    have htwd : (natDigits k ++ [']']).takeWhile digitB = natDigits k := by
      rw [takeWhile_app_all _ _ _ (natDigits_all_digit k)]
      simp [List.takeWhile_cons, hrb]
    have hdwd : (natDigits k ++ [']']).dropWhile digitB = [']'] := by
      rw [dropWhile_app_all _ _ _ (natDigits_all_digit k)]
      simp [List.dropWhile_cons, hrb]
    simp only
    rw [if_pos (by simp), htwd, hdwd]
    rw [if_neg (by simp [natDigits_ne_nil k])]
    simp only [List.isEmpty_nil, Bool.and_true, beq_self_eq_true, if_true]
    rw [valDigits_natDigits]
    rw [if_neg (by omega)]

theorem getElementIndex_pos (doc : XElem) (p : List Nat) : 1 ≤ getElementIndex doc p := by
  rw [getElementIndex]
  cases splitLast p with
  | none => simp
  | some qi => simp

theorem stepStr_html (doc : XElem) (p : List Nat) (e : XElem)
    (hp : getSubtree doc p = some e) (hns : e.ns = nsHTML) :
    stepStr doc p = lowStr e.tag ++ '[' :: (natDigits (getElementIndex doc p) ++ [']']) := by
  rw [stepStr, elemAtD_of_some doc p e hp, getNodeTest]
  rw [if_neg]
  rw [hns]
  intro hcontra
  exact absurd (by simpa using hcontra) (by decide : nsHTML ≠ nsSVG)

/-- The structured steps the rendered absolute path denotes. -/
def absRSteps (doc : XElem) : List Nat → List Nat → List RStep
  | _, [] => []
  | q, i :: rest =>
    ⟨XAxis.childA, NTest.tagT (lowStr (elemAtD doc (q ++ [i])).tag),
      getElementIndex doc (q ++ [i])⟩ :: absRSteps doc (q ++ [i]) rest

theorem wfTree_parts (e : XElem) (h : wfTree e = true) :
    e.ns = nsHTML ∧ lowStr e.tag ≠ [] ∧ (∀ c ∈ lowStr e.tag, nameCharB c = true) ∧
      sibConsist e.children = true ∧ wfForest e.children = true := by
  rw [wfTree_def] at h
  simp only [Bool.and_eq_true, beq_iff_eq] at h
  obtain ⟨⟨⟨hns, htag⟩, hsib⟩, hfor⟩ := h
  rw [tagOkB, Bool.and_eq_true] at htag
  refine ⟨hns, by simpa using htag.1, ?_, hsib, hfor⟩
  intro c hc
  exact List.all_eq_true.mp htag.2 c hc

theorem valid_prefix_child (doc : XElem) (q : List Nat) (i : Nat) (rest : List Nat) (e : XElem)
    (h : getSubtree doc (q ++ i :: rest) = some e) :
    ∃ c, getSubtree doc (q ++ [i]) = some c ∧ getSubtree doc ((q ++ [i]) ++ rest) = some e := by
  have e1 : q ++ i :: rest = (q ++ [i]) ++ rest := by simp
  rw [e1] at h
  rw [getSubtree_append] at h
  cases hc : getSubtree doc (q ++ [i]) with
  | none => rw [hc] at h; exact absurd h (by simp)
  | some c =>
    refine ⟨c, rfl, ?_⟩
    rw [getSubtree_append, hc]
    rw [hc] at h
    simpa using h

theorem mapM_absSteps (doc : XElem) (hw : wfTree doc = true) :
    ∀ (rem q : List Nat) (e : XElem), getSubtree doc (q ++ rem) = some e →
      (absStepsSpec doc q rem).mapM parseOneStep = some (absRSteps doc q rem) := by
  intro rem
  induction rem with
  | nil => intro q e _; rfl
  | cons i rest ih =>
    intro q e hq
    obtain ⟨c, hc, hrest⟩ := valid_prefix_child doc q i rest e hq
    have hcwf := wfTree_at (q ++ [i]) doc hw c hc
    obtain ⟨hns, htagne, htagchars, _, _⟩ := wfTree_parts c hcwf
    rw [absStepsSpec, absRSteps]
    rw [List.mapM_cons]
    rw [stepStr_html doc (q ++ [i]) c hc hns,
      parseOneStep_render (lowStr c.tag) (getElementIndex doc (q ++ [i])) htagne htagchars
        (getElementIndex_pos doc (q ++ [i])), ih (q ++ [i]) e hrest]
    rw [elemAtD_of_some doc (q ++ [i]) c hc]
    rfl

theorem absStepsSpec_no_slash (doc : XElem) (hw : wfTree doc = true) :
    ∀ (rem q : List Nat) (e : XElem), getSubtree doc (q ++ rem) = some e →
      ∀ s ∈ absStepsSpec doc q rem, ∀ c ∈ s, (c == '/') = false := by
  intro rem
  induction rem with
  | nil => intro q e _ s hs; simp [absStepsSpec] at hs
  | cons i rest ih =>
    intro q e hq s hs
    obtain ⟨c, hc, hrest⟩ := valid_prefix_child doc q i rest e hq
    have hcwf := wfTree_at (q ++ [i]) doc hw c hc
    obtain ⟨hns, _, htagchars, _, _⟩ := wfTree_parts c hcwf
    rw [absStepsSpec] at hs
    rcases List.mem_cons.mp hs with h | h
    · rw [h, stepStr_html doc (q ++ [i]) c hc hns]
      intro d hd
      rcases List.mem_append.mp hd with hdt | hdt
      · simp [(nameCharB_ne d (htagchars d hdt)).2.1]
      · rcases List.mem_cons.mp hdt with hdt | hdt
        · rw [hdt]; decide
        · rcases List.mem_append.mp hdt with hdt | hdt
          · simp [(digitB_ne d (natDigits_all_digit _ d hdt)).1]
          · simp only [List.mem_singleton] at hdt
            rw [hdt]; decide
    · exact ih (q ++ [i]) e hrest s h

theorem stepStr_root_no_slash (doc : XElem) (hw : wfTree doc = true) :
    ∀ c ∈ stepStr doc [], (c == '/') = false := by
  obtain ⟨hns, _, htagchars, _, _⟩ := wfTree_parts doc hw
  rw [stepStr_html doc [] doc rfl hns]
  intro d hd
  rcases List.mem_append.mp hd with hdt | hdt
  · simp [(nameCharB_ne d (htagchars d hdt)).2.1]
  · rcases List.mem_cons.mp hdt with hdt | hdt
    · rw [hdt]; decide
    · rcases List.mem_append.mp hdt with hdt | hdt
      · simp [(digitB_ne d (natDigits_all_digit _ d hdt)).1]
      · simp only [List.mem_singleton] at hdt
        rw [hdt]; decide

/-- Parsing a rendered absolute path: with every segment free of `/` and the
first segment nonempty, the string `/seg/seg/…` parses to the absolute query
whose steps are the per-segment parses. -/
theorem parseXPathQ_absolute (s0 : Str) (segs : List Str) (steps : List RStep)
    (h0 : s0 ≠ [])
    (hslash : ∀ s ∈ s0 :: segs, ∀ c ∈ s, (c == '/') = false)
    (hmap : (s0 :: segs).mapM parseOneStep = some steps) :
    parseXPathQ ('/' :: interc (['/']) (s0 :: segs)) = some (XQuery.absolute steps) := by
  obtain ⟨tail0, hint⟩ : ∃ t, interc (['/']) (s0 :: segs) = s0 ++ t := by
    cases segs with
    | nil => exact ⟨[], by simp [interc]⟩
    | cons s ss => exact ⟨'/' :: interc (['/']) (s :: ss), by rw [interc]; simp⟩
  cases hs0 : s0 with
  | nil => exact absurd hs0 h0
  | cons c0 s0rest =>
    have hslash0 : (c0 == '/') = false :=
      hslash s0 (by simp) c0 (by rw [hs0]; simp)
    rw [hs0] at hint hslash hmap
    rw [hint]
    simp only [List.cons_append]
    rw [parseXPathQ]
    rw [if_neg (by simp [hslash0])]
    rw [if_pos (by simp)]
    have hback : c0 :: (s0rest ++ tail0) = interc (['/']) ((c0 :: s0rest) :: segs) := by
      rw [hint]
      simp
    rw [hback, splitCh_interc '/' ((c0 :: s0rest) :: segs) hslash (by simp), hmap]

/-- The rendered absolute path parses to the structured absolute query. -/
theorem parse_getAbsolutePath (doc : XElem) (pos : List Nat) (e : XElem)
    (hw : wfTree doc = true) (hpos : getSubtree doc pos = some e) :
    parseXPathQ (getAbsolutePath doc pos) =
      some (XQuery.absolute
        (⟨XAxis.childA, NTest.tagT (lowStr doc.tag), getElementIndex doc []⟩ ::
          absRSteps doc [] pos)) := by
  obtain ⟨hns, htagne, htagchars, _, _⟩ := wfTree_parts doc hw
  rw [getAbsolutePath, absSegs_cons_spec]
  apply parseXPathQ_absolute
  · rw [stepStr_html doc [] doc rfl hns]
    intro hcontra
    rcases List.append_eq_nil.mp hcontra with ⟨h1, _⟩
    exact htagne h1
  · intro s hs
    rcases List.mem_cons.mp hs with h | h
    · rw [h]
      exact stepStr_root_no_slash doc hw
    · exact absStepsSpec_no_slash doc hw pos [] e (by simpa using hpos) s h
  · rw [List.mapM_cons]
    rw [stepStr_html doc [] doc rfl hns,
      parseOneStep_render (lowStr doc.tag) (getElementIndex doc []) htagne htagchars
        (getElementIndex_pos doc []),
      mapM_absSteps doc hw pos [] e (by simpa using hpos)]
    rfl

/-! ## C4 machinery, stage 3: the structured absolute query evaluates to the
singleton of the addressed position. -/

theorem range_map_lookup (l : List XElem) : ∀ i, i ≤ l.length →
    (List.range i).map (fun j => l[j]?.getD dummyElem) = l.take i := by
  intro i
  induction i with
  | zero => intro _; simp
  | succ n ih =>
    intro h
    rw [List.range_succ, List.map_append, ih (by omega), List.take_succ]
    simp only [List.map_cons, List.map_nil]
    congr 1
    cases hl : l[n]? with
    | none =>
      rw [List.getElem?_eq_none_iff] at hl
      omega
    | some x => simp

theorem length_filter_lookup (l : List XElem) (i : Nat) (hi : i ≤ l.length)
    (f : XElem → Bool) :
    ((List.range i).filter (fun j => f (l[j]?.getD dummyElem))).length =
      ((l.take i).filter f).length := by
  rw [← range_map_lookup l i hi, List.filter_map]
  simp only [List.length_map]
  rfl

theorem filter_range_get (n i : Nat) (p : Nat → Bool) (hin : i < n) (hpi : p i = true) :
    ((List.range n).filter p)[((List.range i).filter p).length]? = some i := by
  have hsplit : List.range n =
      List.range (i + 1) ++ (List.range (n - (i + 1))).map ((i + 1) + ·) := by
    have hr := List.range_add (i + 1) (n - (i + 1))
    rw [← hr]
    congr 1
    omega
  have hfi : List.filter p [i] = [i] := by simp [hpi]
  rw [hsplit, List.filter_append, List.range_succ, List.filter_append, hfi,
    List.append_assoc, List.getElem?_append_right (Nat.le_refl _)]
  simp

theorem sibConsist_iff (children : List XElem) (h : sibConsist children = true)
    (a b : XElem) (ha : a ∈ children) (hb : b ∈ children) :
    (lowStr a.tag == lowStr b.tag) = (a.tag == b.tag) := by
  have hp : (!(lowStr a.tag == lowStr b.tag) || (a.tag == b.tag)) = true :=
    List.all_eq_true.mp (List.all_eq_true.mp h a ha) b hb
  cases hlow : (lowStr a.tag == lowStr b.tag) with
  | false =>
    cases htag : (a.tag == b.tag) with
    | false => rfl
    | true =>
      rw [beq_iff_eq] at htag
      rw [htag] at hlow
      simp at hlow
  | true =>
    rw [hlow] at hp
    simpa using hp

theorem stepFrom_child (doc : XElem) (q : List Nat) (x c : XElem) (i : Nat)
    (hw : wfTree doc = true) (hq : getSubtree doc q = some x)
    (hc : x.children[i]? = some c) :
    stepFrom doc q ⟨XAxis.childA, NTest.tagT (lowStr c.tag), getElementIndex doc (q ++ [i])⟩ =
      some (q ++ [i]) := by
  have hxwf := wfTree_at q doc hw x hq
  obtain ⟨_, _, _, hsib, hfor⟩ := wfTree_parts x hxwf
  have hin : i < x.children.length := by
    by_contra hcon
    rw [List.getElem?_eq_none (by omega)] at hc
    exact absurd hc (by simp)
  have hcd : x.children[i]?.getD dummyElem = c := by rw [hc]; rfl
  have hpred : ∀ j ∈ List.range x.children.length,
      ntestB (elemAtD doc (q ++ [j])) (NTest.tagT (lowStr c.tag)) =
        ((x.children[j]?.getD dummyElem).tag == c.tag) := by
    intro j hj
    rw [List.mem_range] at hj
    obtain ⟨cj, hcj⟩ : ∃ cj, x.children[j]? = some cj := by
      cases hcj : x.children[j]? with
      | none =>
        rw [List.getElem?_eq_none_iff] at hcj
        omega
      | some cj => exact ⟨cj, rfl⟩
    have hcjw := wfForest_at x.children hfor j cj hcj
    obtain ⟨hnsj, _, _, _, _⟩ := wfTree_parts cj hcjw
    rw [elemAtD_child doc q x hq j, hcj]
    simp only [Option.getD_some]
    rw [ntestB]
    have hlowiff := sibConsist_iff x.children hsib cj c
      (List.getElem?_mem hcj) (List.getElem?_mem hc)
    rw [hlowiff]
    simp [hnsj]
  have hidx : getElementIndex doc (q ++ [i]) =
      1 + ((x.children.take i).filter (fun s => s.tag == c.tag)).length := by
    rw [getElementIndex, splitLast_append]
    simp only
    rw [elemAtD_of_some doc q x hq, elemAtD_child doc q x hq i, hc]
    rfl
  rw [stepFrom]
  simp only
  rw [elemAtD_of_some doc q x hq]
  rw [List.filter_congr hpred]
  rw [hidx, pickNth]
  rw [if_neg (by omega)]
  have hlen : ((x.children.take i).filter (fun s => s.tag == c.tag)).length =
      ((List.range i).filter
        (fun j => (x.children[j]?.getD dummyElem).tag == c.tag)).length := by
    rw [length_filter_lookup x.children i (by omega) (fun s => s.tag == c.tag)]
  have hget := filter_range_get x.children.length i
    (fun j => (x.children[j]?.getD dummyElem).tag == c.tag) hin (by simp [hcd])
  have harith : 1 + ((x.children.take i).filter (fun s => s.tag == c.tag)).length - 1 =
      ((List.range i).filter
        (fun j => (x.children[j]?.getD dummyElem).tag == c.tag)).length := by
    rw [hlen]
    omega
  rw [harith, hget]
  rfl

theorem runSteps_absRSteps (doc : XElem) (hw : wfTree doc = true) :
    ∀ (rem q : List Nat) (x e : XElem), getSubtree doc q = some x →
      getSubtree doc (q ++ rem) = some e →
      runSteps doc (absRSteps doc q rem) q = some (q ++ rem) := by
  intro rem
  induction rem with
  | nil => intro q x e _ _; simp [absRSteps, runSteps]
  | cons i rest ih =>
    intro q x e hq hqr
    obtain ⟨c, hcsub, hrest⟩ := valid_prefix_child doc q i rest e hqr
    have hcc : x.children[i]? = some c := by
      have := hcsub
      rw [getSubtree_append, hq, Option.some_bind, getSubtree_singleton] at this
      exact this
    rw [absRSteps, runSteps]
    rw [elemAtD_of_some doc (q ++ [i]) c hcsub]
    rw [stepFrom_child doc q x c i hw hq hcc]
    show runSteps doc (absRSteps doc (q ++ [i]) rest) (q ++ [i]) = some (q ++ i :: rest)
    rw [ih (q ++ [i]) c e hcsub hrest]
    congr 1
    simp

theorem evalQuery_absRoot (doc : XElem) (pos : List Nat) (e : XElem)
    (hw : wfTree doc = true) (hpos : getSubtree doc pos = some e) :
    evalQuery doc (XQuery.absolute
      (⟨XAxis.childA, NTest.tagT (lowStr doc.tag), getElementIndex doc []⟩ ::
        absRSteps doc [] pos)) = [pos] := by
  obtain ⟨hns, _, _, _, _⟩ := wfTree_parts doc hw
  rw [evalQuery]
  simp only
  have hroot : ntestB doc (NTest.tagT (lowStr doc.tag)) = true := by
    rw [ntestB]
    simp [hns]
  rw [hroot]
  have hidx : getElementIndex doc [] = 1 := by rw [getElementIndex]; rfl
  rw [hidx]
  simp only [if_true]
  rw [pickNth]
  simp only [if_neg (by omega : ¬ (1 : Nat) = 0)]
  have hget : ([([] : List Nat)])[(1 : Nat) - 1]? = some [] := by rfl
  rw [hget, Option.some_bind]
  rw [runSteps_absRSteps doc hw pos [] doc e rfl (by simpa using hpos)]
  simp

theorem mem_dedupeGo_sub (doc : XElem) (cands : List Cand) :
    ∀ (seen : List Str) (c : Cand), c ∈ dedupeGo doc cands seen → c ∈ cands := by
  induction cands with
  | nil => intro seen c hc; simp [dedupeGo] at hc
  | cons x rest ih =>
    intro seen c hc
    rw [dedupeGo] at hc
    by_cases h1 : (x.xpath.isEmpty || seen.contains x.xpath) = true
    · rw [if_pos h1] at hc
      exact List.mem_cons_of_mem x (ih seen c hc)
    · rw [if_neg h1] at hc
      by_cases h2 : (!isUnique x.xpath doc) = true
      · rw [if_pos h2] at hc
        exact List.mem_cons_of_mem x (ih seen c hc)
      · rw [if_neg h2] at hc
        rcases List.mem_cons.mp hc with h | h
        · rw [h]; simp
        · exact List.mem_cons_of_mem x (ih _ c h)

/-- Concrete document with a non-HTML-namespace (MathML) element, for the C4
counterexample. -/
def docM : XElem :=
  XElem.mk ( "HTML".data) nsHTML [] [] [
    XElem.mk ( "BODY".data) nsHTML [] [] [
      XElem.mk ( "math".data) ( "http://www.w3.org/1998/Math/MathML".data)
        [] [] [] none] none] none

/-- Claim C4, counterexample: for the MathML element of `docM` the
root-to-target absolute path evaluates to zero matches (its plain tag test
carries no namespace and so fails under namespace binding), not to the
singleton of the element; in particular it is not "unique by construction". -/
theorem c4_absolute_path_counterexample :
    (getSubtree docM [0, 0]).isSome ∧
    evalXPathStr (getAbsolutePath docM [0, 0]) docM = .ok [] ∧
    isUnique (getAbsolutePath docM [0, 0]) docM = false := by
  refine ⟨by decide, by decide, by decide⟩

/-- Claim C4, amended: for every element of a document whose elements all lie
in the default HTML namespace (with DOM-canonical, case-consistent tag
names), the root-to-target path built with a 1-based same-tag sibling index
at every level evaluates to exactly the singleton of that element (so it is
unique by construction); and for every document and element, whenever no
other candidate validates, `generateXPathInDocument` returns exactly this
absolute path, so the call always succeeds. -/
theorem c4_absolute_path :
    (∀ (doc : XElem) (pos : List Nat) (e : XElem), wfTree doc = true →
      getSubtree doc pos = some e →
      evalXPathStr (getAbsolutePath doc pos) doc = .ok [pos] ∧
      isUnique (getAbsolutePath doc pos) doc = true) ∧
    (∀ (doc : XElem) (pos : List Nat),
      (∀ c ∈ collectAllCandidates doc pos, c.xpath ≠ getAbsolutePath doc pos →
        isUnique c.xpath doc = false) →
      generateXPathInDocument doc pos = getAbsolutePath doc pos) := by
  constructor
  · intro doc pos e hw hpos
    have heval : evalXPathStr (getAbsolutePath doc pos) doc = .ok [pos] := by
      rw [evalXPathStr, parse_getAbsolutePath doc pos e hw hpos]
      show Except.ok (evalQuery doc (XQuery.absolute
        (⟨XAxis.childA, NTest.tagT (lowStr doc.tag), getElementIndex doc []⟩ ::
          absRSteps doc [] pos))) = Except.ok [pos]
      rw [evalQuery_absRoot doc pos e hw hpos]
    refine ⟨heval, ?_⟩
    rw [isUnique, heval]
    rfl
  · intro doc pos hother
    have habs : ∀ c ∈ dedupeAndValidate (collectAllCandidates doc pos) doc,
        c.xpath = getAbsolutePath doc pos := by
      intro c hc
      by_contra hne
      have h1 := mem_dedupeGo_isUnique doc _ [] c hc
      have h2 := mem_dedupeGo_sub doc _ [] c hc
      rw [hother c h2 hne] at h1
      exact absurd h1 (by simp)
    rw [generateXPathInDocument]
    cases hh : (sortCands (dedupeAndValidate (collectAllCandidates doc pos) doc)).head? with
    | none => rfl
    | some b =>
      obtain ⟨hmem, _⟩ := sortCands_head_min _ _ hh
      exact habs b hmem

/-- A one-element document whose root has no stable hooks at all, so no
candidate other than the absolute path exists. -/
def docRootW : XElem := XElem.mk ( "HTML".data) nsHTML [] [] [] none

/-- Claim C4 witness: on the concrete HTML document the absolute path of the
div evaluates to the singleton of the div, and on a hookless document the
generator returns exactly the absolute path. -/
theorem c4_absolute_path_witness :
    evalXPathStr (getAbsolutePath docW [0, 0]) docW = .ok [[0, 0]] ∧
    isUnique (getAbsolutePath docW [0, 0]) docW = true ∧
    generateXPathInDocument docRootW [] = getAbsolutePath docRootW [] := by
  have h1 := c4_absolute_path.1 docW [0, 0]
    (XElem.mk ( "DIV".data) nsHTML [( "id".data, "a|b".data)] [] [] none)
    (by decide) rfl
  exact ⟨h1.1, h1.2, c4_absolute_path.2 docRootW [] (by decide)⟩

/-- Claim C8: when the model path-query engine fails on a candidate selector
(unparseable / unsupported syntax, the thrown-exception case), the uniqueness
validator returns `false` rather than propagating the failure; `isUnique` is
a total Boolean function, so no error escapes it or the generation call. -/
theorem c8_evaluation_failure_recovery (xp : Str) (doc : XElem)
    (h : evalXPathStr xp doc = .error ()) : isUnique xp doc = false := by
  rw [isUnique, h]

/-- Claim C8 witness: a malformed query (unterminated literal) fails to
evaluate and is treated as non-unique. -/
theorem c8_evaluation_failure_recovery_witness :
    isUnique ( "//*[@id='a".data) (XElem.mk ( "HTML".data) nsHTML [] [] [] none) = false :=
  c8_evaluation_failure_recovery _ _ (by decide)

end XPG
